import Mathlib

/-!
Verification development for the Telegram listener service.

The definitions below are shallow embeddings of the Python sources:
  * `MediaService`   — services/telegram/media_service.py
  * `CallbackService`— services/telegram/callback_service.py
  * `TypingService`  — services/telegram/typing_service.py
  * `GroupBuffer`    — telegramlistener.py (media-group debounce buffer)

Conventions of the embedding:
  * Python `None` becomes `Option.none`; truthiness of containers/values is
    modelled explicitly where the source relies on it.
  * Network and Telethon effects are parameters: the result of
    `client.download_media` is an `Except String (List Nat)` (error message or
    raw bytes), HTTP attempt outcomes are a function `Nat → AttemptOutcome`,
    and `client.action` signals are recorded in a log together with a flag
    saying whether the call raised (every such call site swallows or
    propagates the exception exactly as the source does).
  * asyncio concurrency is modelled as an interleaving of atomic steps; a
    step corresponds to a segment of a coroutine between suspension points.
    Cancellation of a sleeping task is modelled by the task never running its
    post-sleep continuation, which is what `except asyncio.CancelledError`
    around the sleep produces.
  * Base64 re-encoding of downloaded bytes is carried as the bytes
    themselves (the encoding is a bijection and is never inspected); the
    float-formatted interpolations inside human-readable `reason` strings are
    elided, the surrounding text is kept.
-/

/-! ## Media model (telethon.tl.types, the parts media_service.py reads) -/

/-- One attribute of a Telegram document, as dispatched on by
`type(attr).__name__` in `media_service.py`. -/
inductive DocAttr where
  | filename (file_name : String)
  | video
  | audio (voice : Bool)
  | sticker
  | animated
  | otherAttr
deriving DecidableEq, Repr

/-- A Telegram document: `media.document` with its `size`, `mime_type` and
`attributes`.  `mime_type` is `Option String`; the source also relies on the
falsiness of the empty string (`media.document.mime_type or "..."`). -/
structure TLDocument where
  size : Nat
  mime_type : Option String
  attributes : List DocAttr
deriving DecidableEq, Repr

/-- A Telegram photo: `media.photo` carrying `sizes`; each element either has
a `size` attribute (`some n`) or not (`none`), mirroring the
`hasattr(size, 'size')` test. -/
structure TLPhoto where
  sizes : List (Option Nat)
deriving DecidableEq, Repr

/-- The media payload of a message: the `MessageMedia*` classes the source
inspects with `isinstance`.  `photo`/`document` carry their possibly-`None`
inner object. -/
inductive TLMedia where
  | photo (photo : Option TLPhoto)
  | document (document : Option TLDocument)
  | contact
  | geo
  | webpage
  | poll
deriving DecidableEq, Repr

/-- The slice of a Telethon message that `media_service.py` reads. -/
structure TLMessage where
  media : Option TLMedia
deriving DecidableEq, Repr

/-- The configuration values read by the media pipeline
(services/telegram/config.py). -/
structure Config where
  ENABLE_MEDIA_DOWNLOAD : Bool
  MAX_MEDIA_SIZE : Nat
  DOWNLOAD_MEDIA_TYPES : List String
  CALLBACK_RETRIES : Nat
deriving DecidableEq, Repr

/-- The `violation` sub-dict of a skipped media result. -/
structure Violation where
  type : String
  reason : String
deriving DecidableEq, Repr

/-- The dict returned by `MediaService.process_media` /
`_build_skipped_result`: media metadata plus either downloaded bytes or a
violation record. -/
structure MediaResult where
  type : String
  mime_type : String
  filename : Option String
  size : Option Nat
  base64 : Option (List Nat)
  skipped : Bool
  violation : Option Violation
deriving DecidableEq, Repr

namespace MediaService

/-- `MediaService.is_downloadable`: the media is an instance of
`(MessageMediaPhoto, MessageMediaDocument)`. -/
def is_downloadable (message : TLMessage) : Bool :=
  match message.media with
  | none => false
  | some (.photo _) => true
  | some (.document _) => true
  | some _ => false

/-- `MediaService.get_media_size`: document size, or the last photo size that
carries a `size` attribute (the loop walks `reversed(media.photo.sizes)`). -/
def get_media_size (message : TLMessage) : Option Nat :=
  match message.media with
  | none => none
  | some (.photo p) =>
      match p with
      | some photo => photo.sizes.reverse.findSome? (fun s => s)
      | none => none
  | some (.document d) =>
      match d with
      | some doc => some doc.size
      | none => none
  | some _ => none

/-- `MediaService.get_mime_type`.  `media.document.mime_type or
"application/octet-stream"` treats the empty string as missing. -/
def get_mime_type (message : TLMessage) : String :=
  match message.media with
  | none => "application/octet-stream"
  | some (.photo _) => "image/jpeg"
  | some (.document (some doc)) =>
      match doc.mime_type with
      | some s => if s = "" then "application/octet-stream" else s
      | none => "application/octet-stream"
  | some _ => "application/octet-stream"

/-- `MediaService.get_filename`: the first `DocumentAttributeFilename`. -/
def get_filename (message : TLMessage) : Option String :=
  match message.media with
  | some (.document (some doc)) =>
      doc.attributes.findSome? (fun a =>
        match a with
        | .filename n => some n
        | _ => none)
  | _ => none

/-- The per-attribute case of `get_media_type`'s scan over
`media.document.attributes`. -/
def attrMediaType : DocAttr → Option String
  | .video => some "video"
  | .audio voice => some (if voice then "voice" else "audio")
  | .sticker => some "sticker"
  | .animated => some "animation"
  | _ => none

/-- `MediaService.get_media_type`. -/
def get_media_type (message : TLMessage) : String :=
  match message.media with
  | none => "unknown"
  | some (.photo _) => "photo"
  | some (.document (some doc)) =>
      match doc.attributes.findSome? attrMediaType with
      | some t => t
      | none => "document"
  | some (.document none) => "unknown"
  | some _ => "unknown"

/-- `MediaService.is_type_enabled`. -/
def is_type_enabled (cfg : Config) (message : TLMessage) : Bool :=
  get_media_type message ∈ cfg.DOWNLOAD_MEDIA_TYPES

/-- `MediaService._build_skipped_result`. -/
def build_skipped_result (message : TLMessage) (reason : String)
    (violation_type : String) : MediaResult :=
  { type := get_media_type message
  , mime_type := get_mime_type message
  , filename := get_filename message
  , size := get_media_size message
  , base64 := none
  , skipped := true
  , violation := some { type := violation_type, reason := reason } }

/-- The Python condition `if size and size > max_size_bytes` (an `Option Nat`
is truthy when it is `some` of a non-zero value). -/
def sizeOverLimit (size : Option Nat) (max_size_bytes : Nat) : Bool :=
  match size with
  | some s => decide (s ≠ 0) && decide (max_size_bytes < s)
  | none => false

/-- `MediaService.process_media`.  `dl` is the outcome of
`client.download_media(message)`: the bytes, or the message of the raised
exception. -/
def process_media (cfg : Config) (dl : Except String (List Nat))
    (message : TLMessage) : Option MediaResult :=
  match message.media with
  | none => none
  | some _ =>
    let media_type := get_media_type message
    let size := get_media_size message
    if !cfg.ENABLE_MEDIA_DOWNLOAD then
      some (build_skipped_result message
        "Media download is disabled in configuration" "download_disabled")
    else if !is_downloadable message then
      some (build_skipped_result message
        "Media type cannot be downloaded as file" "not_downloadable")
    else if !is_type_enabled cfg message then
      some (build_skipped_result message
        "Media type is not enabled for download" "type_not_enabled")
    else
      let max_size_bytes := cfg.MAX_MEDIA_SIZE * 1024 * 1024
      if sizeOverLimit size max_size_bytes then
        some (build_skipped_result message
          "File size exceeds limit" "size_exceeded")
      else
        match dl with
        | .ok media_bytes =>
            some { type := media_type
                 , mime_type := get_mime_type message
                 , filename := get_filename message
                 , size := some media_bytes.length
                 , base64 := some media_bytes
                 , skipped := false
                 , violation := none }
        | .error e =>
            some (build_skipped_result message
              ("Download failed: " ++ e) "download_error")

/-- `MediaService.download_as_base64` (deprecated entry point): calls
`process_media` and, for backward compatibility, drops skipped results whose
violation type is not `size_exceeded` or `download_error`. -/
def download_as_base64 (cfg : Config) (dl : Except String (List Nat))
    (message : TLMessage) : Option MediaResult :=
  let result := process_media cfg dl message
  match result with
  | some r =>
      if r.skipped then
        let violation_type := (r.violation.map Violation.type).getD ""
        if violation_type = "size_exceeded" ∨ violation_type = "download_error" then
          some r
        else
          none
      else
        some r
  | none => none

end MediaService

/-! ## CallbackService (services/telegram/callback_service.py)

`send` loops `for attempt in range(Config.CALLBACK_RETRIES)`; one iteration
POSTs the payload and observes an HTTP status, a timeout, or a connection
error.  We parametrise the transport by `outcomes : Nat → AttemptOutcome`
(the outcome the network would give to attempt number `i`) and record, besides
the returned Bool, how many attempts were made and the argument of every
`asyncio.sleep` executed between attempts. -/

/-- What one POST attempt can observe in `CallbackService.send`:  a response
status, an `asyncio.TimeoutError`, or any other exception from the client. -/
inductive AttemptOutcome where
  | status (code : Nat)
  | timeoutErr
  | connError (msg : String)
deriving DecidableEq, Repr

/-- `response.status == 200`, the only success test in the source. -/
def attemptSucceeds : AttemptOutcome → Bool
  | .status code => code == 200
  | _ => false

/-- Observable trace of one `send` call: returned value, number of loop
iterations entered, and the durations passed to the backoff sleeps in order. -/
structure SendTrace where
  result : Bool
  attempts : Nat
  sleeps : List Nat
deriving DecidableEq, Repr

namespace CallbackService

/-- The retry loop of `send`, structured on the remaining iteration count
(`fuel`); `attempt` is the current value of the loop variable, so the loop
body runs with `attempt = retries - fuel₀ + (fuel₀ - fuel) `… i.e. `send`
enters with `attempt = 0`, `fuel = retries`.  A successful status returns
`True` immediately; a failed attempt sleeps `2 ** attempt` exactly when
`attempt < retries - 1`; falling out of the loop returns `False`. -/
def sendLoop (retries : Nat) (outcomes : Nat → AttemptOutcome) :
    Nat → Nat → SendTrace
  | _, 0 => { result := false, attempts := 0, sleeps := [] }
  | attempt, fuel + 1 =>
      if attemptSucceeds (outcomes attempt) then
        { result := true, attempts := 1, sleeps := [] }
      else if attempt < retries - 1 then
        let rest := sendLoop retries outcomes (attempt + 1) fuel
        { result := rest.result
        , attempts := rest.attempts + 1
        , sleeps := 2 ^ attempt :: rest.sleeps }
      else
        { result := false, attempts := 1, sleeps := [] }

/-- `CallbackService.send`.  `started` models `self.http_session` being
non-`None` (the session exists between `start()` and `stop()`); when it is
`False` the source logs and returns `False` before any attempt. -/
def send (retries : Nat) (started : Bool)
    (outcomes : Nat → AttemptOutcome) : SendTrace :=
  if started then sendLoop retries outcomes 0 retries
  else { result := false, attempts := 0, sleeps := [] }

end CallbackService

/-! ## TypingService (services/telegram/typing_service.py)

The registry is the `dict[str, asyncio.Task]` passed to every entry point; we
model it as a partial map from chat key to task id.  Tasks are stored in an
append-only list indexed by id; `asyncio.create_task` appends a new record.
A task is `created` until its coroutine first runs, `started` once it has
entered `client.action(..., "typing")`/`asyncio.sleep`, `cancelRequested`
after `Task.cancel()` (the task is not yet `done()`), and `done` once its
`finally` block has run.  `Task.done()` is exactly `status = .done`.

Transport signals (`client.action`) are recorded in a log; the Bool carried
by a signal says whether the call raised (the source swallows the exception
at every `cancel` call site). -/

/-- Lifecycle status of one typing `asyncio.Task`. -/
inductive TaskStatus where
  | created
  | started
  | cancelRequested
  | done
deriving DecidableEq, Repr

/-- One typing task: the chat key and duration its coroutine closed over,
and its current status. -/
structure TaskRec where
  chat_key : String
  duration : Nat
  status : TaskStatus
deriving DecidableEq, Repr

/-- A `client.action` chat-action signal, with the outcome of the call
(`ok = false` means the call raised and the caller swallowed it). -/
inductive ActionSignal where
  | typing (chat_key : String)
  | cancelAction (chat_key : String) (ok : Bool)
deriving DecidableEq, Repr

/-- Shared state of the typing subsystem: the registry dict, the tasks ever
created (id = index), and the chronological transport log. -/
structure TypingSys where
  registry : String → Option Nat
  tasks : List TaskRec
  log : List ActionSignal
deriving Inhabited

namespace TypingService

/-- The empty registry with no tasks: the module-level
`_typing_tasks: dict[str, asyncio.Task] = {}`. -/
def initTyping : TypingSys :=
  { registry := fun _ => none, tasks := [], log := [] }

/-- `existing and not existing.done()`: the registry holds a task for this
key whose `done()` is false. -/
def liveInRegistry (s : TypingSys) (chat_key : String) : Bool :=
  match s.registry chat_key with
  | some tid =>
      match s.tasks[tid]? with
      | some rec => decide (rec.status ≠ .done)
      | none => false
  | none => false

/-- `Task.cancel()` on task `tid`: a not-yet-done task becomes
cancel-requested; cancelling a done task is a no-op. -/
def cancelTask (tasks : List TaskRec) (tid : Nat) : List TaskRec :=
  match tasks[tid]? with
  | some rec =>
      if rec.status = .done then tasks
      else tasks.set tid { rec with status := .cancelRequested }
  | none => tasks

/-- Dict assignment `registry[chat_key] = task`. -/
def dictSet (r : String → Option Nat) (k : String) (v : Nat) :
    String → Option Nat :=
  fun k' => if k' = k then some v else r k'

/-- Dict removal `registry.pop(chat_key, None)`. -/
def dictPop (r : String → Option Nat) (k : String) : String → Option Nat :=
  fun k' => if k' = k then none else r k'

/-- `TypingService.start_typing`: cancel a live existing task for the key,
create the new task (id = current length of the task list) and register it.
The new coroutine has not run yet, so no transport signal is emitted here. -/
def start_typing (s : TypingSys) (chat_id : String) (duration_seconds : Nat) :
    TypingSys :=
  let chat_key := chat_id
  let tasks :=
    if liveInRegistry s chat_key then
      match s.registry chat_key with
      | some tid => cancelTask s.tasks tid
      | none => s.tasks
    else s.tasks
  let newId := tasks.length
  { registry := dictSet s.registry chat_key newId
  , tasks := tasks ++ [{ chat_key := chat_key
                       , duration := duration_seconds
                       , status := .created }]
  , log := s.log }

/-- `TypingService.cancel_typing`: cancel a live registry task if present,
then always send one best-effort `cancel` action (`actionOk = false` models
`client.action` raising; the exception is swallowed).  Returns the updated
state and `cancelled_task`. -/
def cancel_typing (s : TypingSys) (chat_id : String) (actionOk : Bool) :
    TypingSys × Bool :=
  let chat_key := chat_id
  let cancelled_task := liveInRegistry s chat_key
  let tasks :=
    if cancelled_task then
      match s.registry chat_key with
      | some tid => cancelTask s.tasks tid
      | none => s.tasks
    else s.tasks
  ({ registry := s.registry
   , tasks := tasks
   , log := s.log ++ [.cancelAction chat_key actionOk] }
  , cancelled_task)

/-- First segment of `TypingService._typing_task`: the coroutine runs up to
its suspension inside `client.action(chat_id, "typing")`/`asyncio.sleep`,
emitting the `typing` action.  Only a task that was scheduled but has not run
yet can take this step. -/
def taskBegin (s : TypingSys) (tid : Nat) : TypingSys :=
  match s.tasks[tid]? with
  | some rec =>
      if rec.status = .created then
        { s with
          tasks := s.tasks.set tid { rec with status := .started }
        , log := s.log ++ [.typing rec.chat_key] }
      else s
  | none => s

/-- Final segment of `TypingService._typing_task`: the sleep ends (normally,
by cancellation, or by an error) and the `finally` block runs — it sends a
best-effort `cancel` action (failure swallowed), then pops the registry entry
*only if* `registry.get(chat_key) is current_task`, and the task becomes
`done`.  Any not-yet-done task can take this step (timing is abstracted). -/
def taskFinish (s : TypingSys) (tid : Nat) (actionOk : Bool) : TypingSys :=
  match s.tasks[tid]? with
  | some rec =>
      if rec.status = .done then s
      else
        let registry :=
          if s.registry rec.chat_key = some tid then
            dictPop s.registry rec.chat_key
          else s.registry
        { registry := registry
        , tasks := s.tasks.set tid { rec with status := .done }
        , log := s.log ++ [.cancelAction rec.chat_key actionOk] }
  | none => s

/-- The events the typing subsystem's state evolves by: the two public entry
points and the two coroutine segments of `_typing_task`. -/
inductive TypingEvent where
  | start (chat_id : String) (duration_seconds : Nat)
  | cancel (chat_id : String) (actionOk : Bool)
  | begin_ (tid : Nat)
  | finish (tid : Nat) (actionOk : Bool)
deriving DecidableEq, Repr

/-- One interleaving step of the typing subsystem. -/
def typingStep (s : TypingSys) : TypingEvent → TypingSys
  | .start chat_id d => start_typing s chat_id d
  | .cancel chat_id ok => (cancel_typing s chat_id ok).1
  | .begin_ tid => taskBegin s tid
  | .finish tid ok => taskFinish s tid ok

/-- Run a sequence of events from the empty initial state. -/
def runTyping (evs : List TypingEvent) : TypingSys :=
  evs.foldl typingStep initTyping

/-- A task id is *active* for a chat key when it is a task for that key that
is neither done nor cancel-requested: the only tasks that will still show a
typing indicator.  ("Live" in the at-most-one-per-key sense of the spec.) -/
def activeFor (s : TypingSys) (chat_key : String) (tid : Nat) : Prop :=
  ∃ rec, s.tasks[tid]? = some rec ∧ rec.chat_key = chat_key ∧
    (rec.status = .created ∨ rec.status = .started)

/-- Well-formedness maintained by every step of the typing subsystem: each
registry entry points at an existing task of its own key, and each active
task is its key's current registry entry — whence at most one active task
per key. -/
def typingInvariant (s : TypingSys) : Prop :=
  (∀ k tid, s.registry k = some tid →
    ∃ rec, s.tasks[tid]? = some rec ∧ rec.chat_key = k) ∧
  (∀ k tid, activeFor s k tid → s.registry k = some tid)

end TypingService

/-! ## Media-group debounce buffer (telegramlistener.py)

`TelegramUserClient` keeps `media_group_buffers : dict[str, MediaGroupBuffer]`
where a buffer holds the ordered messages of one album plus its current
debounce timer task.  Timer tasks live in an append-only list (id = index).
A timer is `sleeping` while inside `asyncio.sleep(MEDIA_GROUP_TIMEOUT)`;
cancelling it makes the sleep raise `CancelledError`, which
`_process_media_group_after_timeout` catches and ignores, so a cancelled
timer never reaches `_process_media_group` — its firing step is a no-op.
When the sleep completes uncancelled, the timer runs `_process_media_group`:
pop the buffer, and when it is non-empty build and send one payload whose
`media_group_messages` lists the buffered messages in arrival order.  The
flush runs without touching the buffer map after the pop, and no handler can
cancel the timer after the pop (the only reference to it was in the popped
buffer), so the whole firing is one atomic step.  Messages are opaque
handles, modelled as their ids. -/

/-- State of one debounce timer task. -/
inductive TimerStatus where
  | sleeping
  | cancelled
  | fired
deriving DecidableEq, Repr

/-- One timer task: the group key its coroutine closed over and its status. -/
structure TimerRec where
  group_id : String
  status : TimerStatus
deriving DecidableEq, Repr

/-- `MediaGroupBuffer`: ordered buffered messages and the current
`timer_task` (an id into the timer list; `none` mirrors the freshly
constructed buffer before a timer is attached). -/
structure GroupBuf where
  messages : List Nat
  timer_task : Option Nat
deriving DecidableEq, Repr

/-- State of the media-group subsystem: the buffer dict, all timers ever
created, and the payloads handed to `callback_service.send`, each recorded as
(group id, messages in arrival order). -/
structure GroupSys where
  buffers : String → Option GroupBuf
  timers : List TimerRec
  dispatched : List (String × List Nat)
deriving Inhabited

namespace GroupBuffer

/-- Initial state: empty buffer dict, no timers, nothing dispatched. -/
def initGroup : GroupSys :=
  { buffers := fun _ => none, timers := [], dispatched := [] }

/-- `Task.cancel()` on a timer: a sleeping timer's sleep will raise
`CancelledError`; a finished (fired or already cancelled) timer is
unaffected. -/
def cancelTimer (timers : List TimerRec) (tid : Nat) : List TimerRec :=
  match timers[tid]? with
  | some rec =>
      if rec.status = .sleeping then
        timers.set tid { rec with status := .cancelled }
      else timers
  | none => timers

/-- `TelegramUserClient._handle_media_group_message`: get or create the
buffer, append the message, cancel a pending (not done) timer, and attach a
brand-new sleeping timer. -/
def handle_media_group_message (s : GroupSys) (group_id : String)
    (msg : Nat) : GroupSys :=
  let buf := (s.buffers group_id).getD { messages := [], timer_task := none }
  let buf := { buf with messages := buf.messages ++ [msg] }
  let timers :=
    match buf.timer_task with
    | some tid => cancelTimer s.timers tid
    | none => s.timers
  let newId := timers.length
  { buffers := fun g => if g = group_id then
      some { buf with timer_task := some newId } else s.buffers g
  , timers := timers ++ [{ group_id := group_id, status := .sleeping }]
  , dispatched := s.dispatched }

/-- `TelegramUserClient._process_media_group`: defensive no-op when the key
is absent; otherwise pop the buffer and, when it has messages, send exactly
one payload carrying them in arrival order. -/
def process_media_group (s : GroupSys) (group_id : String) : GroupSys :=
  match s.buffers group_id with
  | none => s
  | some buf =>
      let buffers := fun g => if g = group_id then none else s.buffers g
      if buf.messages = [] then
        { s with buffers := buffers }
      else
        { s with buffers := buffers,
                 dispatched := s.dispatched ++ [(group_id, buf.messages)] }

/-- The firing step of `_process_media_group_after_timeout` for timer `tid`:
only a timer still sleeping completes its sleep and flushes; a cancelled
timer's resumption raises `CancelledError`, which the handler swallows, so
the state is unchanged. -/
def timerFire (s : GroupSys) (tid : Nat) : GroupSys :=
  match s.timers[tid]? with
  | some rec =>
      if rec.status = .sleeping then
        process_media_group
          { s with timers := s.timers.set tid { rec with status := .fired } }
          rec.group_id
      else s
  | none => s

/-- `TelegramUserClient.stop`: cancel every buffer's pending timer. -/
def stopAll (s : GroupSys) : GroupSys :=
  { s with timers := s.timers.map (fun rec =>
      if rec.status = .sleeping then { rec with status := .cancelled }
      else rec) }

/-- Events of the media-group subsystem: a grouped message arriving, a timer
completing its sleep, and client shutdown. -/
inductive GroupEvent where
  | arrive (group_id : String) (msg : Nat)
  | fire (tid : Nat)
  | stop
deriving DecidableEq, Repr

/-- One interleaving step of the media-group subsystem. -/
def groupStep (s : GroupSys) : GroupEvent → GroupSys
  | .arrive g m => handle_media_group_message s g m
  | .fire tid => timerFire s tid
  | .stop => stopAll s

/-- Run a sequence of events from the empty initial state. -/
def runGroup (evs : List GroupEvent) : GroupSys :=
  evs.foldl groupStep initGroup

/-- Timer `tid` is a pending (non-completed, uncancelled) debounce timer for
group `g`. -/
def sleepingFor (s : GroupSys) (g : String) (tid : Nat) : Prop :=
  ∃ rec, s.timers[tid]? = some rec ∧ rec.group_id = g ∧
    rec.status = .sleeping

/-- Well-formedness maintained by every step of the media-group subsystem:
each buffered group holds a pointer to an existing timer of its own key, and
each sleeping timer is the pointed-to timer of its group's buffer — whence
at most one pending debounce timer per group key. -/
def groupInvariant (s : GroupSys) : Prop :=
  (∀ g buf, s.buffers g = some buf →
    ∃ tid rec, buf.timer_task = some tid ∧ s.timers[tid]? = some rec ∧
      rec.group_id = g) ∧
  (∀ g tid, sleepingFor s g tid →
    ∃ buf, s.buffers g = some buf ∧ buf.timer_task = some tid)

end GroupBuffer

/-! ## Concrete fixtures used by the witness theorems -/

/-- A configuration with downloads enabled, a 10 MB ceiling, every media type
allow-listed, and 3 callback retries (the documented defaults). -/
def cfgW : Config :=
  { ENABLE_MEDIA_DOWNLOAD := true
  , MAX_MEDIA_SIZE := 10
  , DOWNLOAD_MEDIA_TYPES :=
      ["photo", "video", "audio", "voice", "document", "sticker", "animation"]
  , CALLBACK_RETRIES := 3 }

/-- A message carrying an 11 MB document. -/
def doc11MB : TLMessage :=
  { media := some (.document (some
      { size := 11 * 1024 * 1024
      , mime_type := some "application/pdf"
      , attributes := [.filename "report.pdf"] })) }

/-- A message carrying a photo none of whose size records has a `size`
attribute: its media size is unknown. -/
def photoNoSize : TLMessage :=
  { media := some (.photo (some { sizes := [none, none] })) }

/-- A transport that times out twice and then answers HTTP 200. -/
def outcomesW : Nat → AttemptOutcome :=
  fun i => if i = 2 then .status 200 else .timeoutErr

/-! ## Theorems -/

/-- Claim C2: `process_media` returns `none` iff the message carries no
media; every media-bearing message yields exactly one result, chosen
first-match-wins in the order: global download switch off →
`download_disabled`, structurally non-downloadable kind →
`not_downloadable`, kind not in the allow-list → `type_not_enabled`, known
size over the ceiling → `size_exceeded`, otherwise a byte fetch whose
failure yields `download_error`.  The Lean function is total, matching the
source's guarantee of never raising for a normal media message. -/
theorem process_media_first_match (cfg : Config) (dl : Except String (List Nat))
    (m : TLMessage) :
    (MediaService.process_media cfg dl m = none ↔ m.media = none) ∧
    (∀ r, MediaService.process_media cfg dl m = some r →
      if cfg.ENABLE_MEDIA_DOWNLOAD = false then
        r.skipped = true ∧ r.violation.map Violation.type = some "download_disabled"
      else if MediaService.is_downloadable m = false then
        r.skipped = true ∧ r.violation.map Violation.type = some "not_downloadable"
      else if MediaService.is_type_enabled cfg m = false then
        r.skipped = true ∧ r.violation.map Violation.type = some "type_not_enabled"
      else if MediaService.sizeOverLimit (MediaService.get_media_size m)
          (cfg.MAX_MEDIA_SIZE * 1024 * 1024) = true then
        r.skipped = true ∧ r.violation.map Violation.type = some "size_exceeded"
      else
        match dl with
        | .ok bytes => r.skipped = false ∧ r.violation = none ∧ r.base64 = some bytes
        | .error _ =>
            r.skipped = true ∧
              r.violation.map Violation.type = some "download_error") := by
  cases hm : m.media with
  | none =>
      refine ⟨by simp [MediaService.process_media, hm], ?_⟩
      intro r hr
      simp [MediaService.process_media, hm] at hr
  | some med =>
      unfold MediaService.process_media
      rw [hm]
      cases hE : cfg.ENABLE_MEDIA_DOWNLOAD with
      | false =>
          refine ⟨by simp, ?_⟩
          intro r hr
          simp only [Bool.not_false, if_true] at hr
          obtain rfl : MediaService.build_skipped_result m
              "Media download is disabled in configuration" "download_disabled" = r :=
            Option.some.inj hr
          simp [MediaService.build_skipped_result]
      | true =>
          simp only [Bool.not_true, Bool.false_eq_true, if_false]
          cases hD : MediaService.is_downloadable m with
          | false =>
              refine ⟨by simp, ?_⟩
              intro r hr
              simp only [Bool.not_false, if_true] at hr
              obtain rfl := Option.some.inj hr
              simp [MediaService.build_skipped_result, hD]
          | true =>
              simp only [Bool.not_true, Bool.false_eq_true, if_false]
              cases hT : MediaService.is_type_enabled cfg m with
              | false =>
                  refine ⟨by simp, ?_⟩
                  intro r hr
                  simp only [Bool.not_false, if_true] at hr
                  obtain rfl := Option.some.inj hr
                  simp [MediaService.build_skipped_result, hD, hT]
              | true =>
                  simp only [Bool.not_true, Bool.false_eq_true, if_false]
                  cases hS : MediaService.sizeOverLimit (MediaService.get_media_size m)
                      (cfg.MAX_MEDIA_SIZE * 1024 * 1024) with
                  | true =>
                      refine ⟨by simp, ?_⟩
                      intro r hr
                      simp only [if_true] at hr
                      obtain rfl := Option.some.inj hr
                      simp [MediaService.build_skipped_result, hD, hT, hS]
                  | false =>
                      simp only [Bool.false_eq_true, if_false]
                      cases dl with
                      | ok bytes =>
                          refine ⟨by simp, ?_⟩
                          intro r hr
                          obtain rfl := Option.some.inj hr
                          simp [hD, hT, hS]
                      | error e =>
                          refine ⟨by simp, ?_⟩
                          intro r hr
                          obtain rfl := Option.some.inj hr
                          simp [MediaService.build_skipped_result, hD, hT, hS]

/-- Witness for C2 at a concrete input: a message with no media maps to
`none`. -/
theorem process_media_first_match_witness :
    MediaService.process_media cfgW (.ok [7]) { media := none } = none :=
  (process_media_first_match cfgW (.ok [7]) { media := none }).1.mpr rfl

/-- Claim C6: for a media-bearing message past the enable, downloadable-kind
and allow-list checks, a known size strictly above
`MAX_MEDIA_SIZE * 1024 * 1024` bytes yields a skipped `size_exceeded` result
with `base64 = none`, independent of the transport (no fetch is attempted);
an unknown size is not rejected by this check and proceeds to the fetch. -/
theorem process_media_size_check (cfg : Config) (m : TLMessage)
    (hen : cfg.ENABLE_MEDIA_DOWNLOAD = true)
    (hdl : MediaService.is_downloadable m = true)
    (hty : MediaService.is_type_enabled cfg m = true) :
    (∀ s, MediaService.get_media_size m = some s →
      cfg.MAX_MEDIA_SIZE * 1024 * 1024 < s →
      ∀ dl dl' : Except String (List Nat),
        MediaService.process_media cfg dl m =
          some (MediaService.build_skipped_result m
            "File size exceeds limit" "size_exceeded") ∧
        (MediaService.build_skipped_result m
            "File size exceeds limit" "size_exceeded").skipped = true ∧
        (MediaService.build_skipped_result m
            "File size exceeds limit" "size_exceeded").base64 = none ∧
        MediaService.process_media cfg dl m =
          MediaService.process_media cfg dl' m) ∧
    (MediaService.get_media_size m = none →
      (∀ bytes, ∃ r, MediaService.process_media cfg (.ok bytes) m = some r ∧
          r.skipped = false ∧ r.base64 = some bytes) ∧
      (∀ e, ∃ r, MediaService.process_media cfg (.error e) m = some r ∧
          r.skipped = true ∧
          r.violation.map Violation.type = some "download_error")) := by
  have hm : m.media ≠ none := by
    intro h
    rw [MediaService.is_downloadable, h] at hdl
    exact Bool.false_ne_true hdl
  cases hmed : m.media with
  | none => exact absurd hmed hm
  | some med =>
  constructor
  · intro s hs hlt dl dl'
    have hover : MediaService.sizeOverLimit (MediaService.get_media_size m)
        (cfg.MAX_MEDIA_SIZE * 1024 * 1024) = true := by
      rw [MediaService.sizeOverLimit.eq_def, hs]
      have : s ≠ 0 := by omega
      simp [this, hlt]
    have heq : ∀ d : Except String (List Nat),
        MediaService.process_media cfg d m =
          some (MediaService.build_skipped_result m
            "File size exceeds limit" "size_exceeded") := by
      intro d
      unfold MediaService.process_media
      rw [hmed]
      simp [hen, hdl, hty, hover]
    exact ⟨heq dl, rfl, rfl, (heq dl).trans (heq dl').symm⟩
  · intro hs
    have hover : MediaService.sizeOverLimit (MediaService.get_media_size m)
        (cfg.MAX_MEDIA_SIZE * 1024 * 1024) = false := by
      rw [MediaService.sizeOverLimit.eq_def, hs]
    constructor
    · intro bytes
      refine ⟨{ type := MediaService.get_media_type m
              , mime_type := MediaService.get_mime_type m
              , filename := MediaService.get_filename m
              , size := some bytes.length
              , base64 := some bytes
              , skipped := false
              , violation := none }, ?_, rfl, rfl⟩
      unfold MediaService.process_media
      rw [hmed]
      simp [hen, hdl, hty, hover]
    · intro e
      refine ⟨MediaService.build_skipped_result m
          ("Download failed: " ++ e) "download_error", ?_, rfl, rfl⟩
      unfold MediaService.process_media
      rw [hmed]
      simp [hen, hdl, hty, hover]

/-- Witness for C6: an 11 MB document against a 10 MB ceiling is skipped as
`size_exceeded` for any transport. -/
theorem process_media_size_check_witness :
    MediaService.get_media_size doc11MB = some (11 * 1024 * 1024) ∧
    cfgW.MAX_MEDIA_SIZE * 1024 * 1024 < 11 * 1024 * 1024 ∧
    MediaService.process_media cfgW (.ok [7]) doc11MB =
      some (MediaService.build_skipped_result doc11MB
        "File size exceeds limit" "size_exceeded") :=
  ⟨by decide, by decide,
    ((process_media_size_check cfgW doc11MB rfl (by decide) (by decide)).1
      (11 * 1024 * 1024) (by decide) (by decide) (.ok [7]) (.error "x")).1⟩

/-- Claim C9: the deprecated `download_as_base64` is the filtered refinement
of `process_media`: it returns exactly `process_media`'s result when that is
`none`, not skipped, or skipped with violation type `size_exceeded` or
`download_error`; for the remaining skipped violation types
(`download_disabled`, `not_downloadable`, `type_not_enabled`) it returns
`none`. -/
theorem download_as_base64_refines (cfg : Config)
    (dl : Except String (List Nat)) (m : TLMessage) :
    (MediaService.process_media cfg dl m = none →
      MediaService.download_as_base64 cfg dl m = none) ∧
    (∀ r, MediaService.process_media cfg dl m = some r →
      (r.skipped = false → MediaService.download_as_base64 cfg dl m = some r) ∧
      (∀ v, r.violation = some v → r.skipped = true →
        ((v.type = "size_exceeded" ∨ v.type = "download_error") →
          MediaService.download_as_base64 cfg dl m = some r) ∧
        ((v.type = "download_disabled" ∨ v.type = "not_downloadable" ∨
            v.type = "type_not_enabled") →
          MediaService.download_as_base64 cfg dl m = none))) := by
  constructor
  · intro h
    unfold MediaService.download_as_base64
    rw [h]
  · intro r hr
    constructor
    · intro hskip
      unfold MediaService.download_as_base64
      rw [hr]
      simp [hskip]
    · intro v hv hskip
      constructor
      · intro hty
        unfold MediaService.download_as_base64
        rw [hr]
        simp only [hskip, if_true, hv, Option.map_some, Option.getD_some]
        rcases hty with h | h <;> simp [h]
      · intro hty
        unfold MediaService.download_as_base64
        rw [hr]
        simp only [hskip, if_true, hv, Option.map_some, Option.getD_some]
        rcases hty with h | h | h <;> simp [h]

/-- Witness for C9: for the 11 MB document, the deprecated entry point
returns the `size_exceeded` result unchanged. -/
theorem download_as_base64_refines_witness :
    MediaService.download_as_base64 cfgW (.ok [7]) doc11MB =
      some (MediaService.build_skipped_result doc11MB
        "File size exceeds limit" "size_exceeded") :=
  (((download_as_base64_refines cfgW (.ok [7]) doc11MB).2
      (MediaService.build_skipped_result doc11MB
        "File size exceeds limit" "size_exceeded")
      (by decide)).2
    { type := "size_exceeded", reason := "File size exceeds limit" }
    rfl rfl).1 (Or.inl rfl)

/-- Claim C8: calling `send` when no HTTP session is held (before `start`
or after `stop`) reports failure without raising and makes no delivery
attempt and no backoff sleep. -/
theorem send_requires_start (retries : Nat)
    (outcomes : Nat → AttemptOutcome) :
    CallbackService.send retries false outcomes =
      { result := false, attempts := 0, sleeps := [] } := rfl

/-- Full behaviour of the retry loop, proved by induction on the remaining
fuel: bounded attempts, success exactly when some attempt in range succeeds,
the successful attempt is the first one, failure exhausts the budget, and the
backoff sleeps are `2 ^ attempt` for every attempt except the last. -/
theorem sendLoop_spec (retries : Nat) (outcomes : Nat → AttemptOutcome) :
    ∀ fuel attempt, attempt + fuel = retries →
      (CallbackService.sendLoop retries outcomes attempt fuel).attempts ≤ fuel ∧
      (1 ≤ fuel →
        1 ≤ (CallbackService.sendLoop retries outcomes attempt fuel).attempts) ∧
      ((CallbackService.sendLoop retries outcomes attempt fuel).result = true ↔
        ∃ i, attempt ≤ i ∧ i < retries ∧ attemptSucceeds (outcomes i) = true) ∧
      ((CallbackService.sendLoop retries outcomes attempt fuel).result = true →
        attemptSucceeds (outcomes (attempt +
          (CallbackService.sendLoop retries outcomes attempt fuel).attempts - 1)) =
          true) ∧
      (∀ j, j + 1 <
          (CallbackService.sendLoop retries outcomes attempt fuel).attempts →
        attemptSucceeds (outcomes (attempt + j)) = false) ∧
      ((CallbackService.sendLoop retries outcomes attempt fuel).result = false →
        (CallbackService.sendLoop retries outcomes attempt fuel).attempts = fuel) ∧
      (CallbackService.sendLoop retries outcomes attempt fuel).sleeps =
        (List.range
          ((CallbackService.sendLoop retries outcomes attempt fuel).attempts - 1)).map
          (fun j => 2 ^ (attempt + j)) := by
  have unf_succ : ∀ fuel attempt,
      attemptSucceeds (outcomes attempt) = true →
      CallbackService.sendLoop retries outcomes attempt (fuel + 1) =
        { result := true, attempts := 1, sleeps := [] } := by
    intro fuel attempt hS
    simp [CallbackService.sendLoop, hS]
  have unf_mid : ∀ fuel attempt,
      attemptSucceeds (outcomes attempt) = false → attempt < retries - 1 →
      CallbackService.sendLoop retries outcomes attempt (fuel + 1) =
        { result :=
            (CallbackService.sendLoop retries outcomes (attempt + 1) fuel).result
        , attempts :=
            (CallbackService.sendLoop retries outcomes (attempt + 1) fuel).attempts + 1
        , sleeps := 2 ^ attempt ::
            (CallbackService.sendLoop retries outcomes (attempt + 1) fuel).sleeps } := by
    intro fuel attempt hS hlt
    simp [CallbackService.sendLoop, hS, hlt]
  have unf_last : ∀ fuel attempt,
      attemptSucceeds (outcomes attempt) = false → ¬(attempt < retries - 1) →
      CallbackService.sendLoop retries outcomes attempt (fuel + 1) =
        { result := false, attempts := 1, sleeps := [] } := by
    intro fuel attempt hS hlt
    simp [CallbackService.sendLoop, hS, hlt]
  intro fuel
  induction fuel with
  | zero =>
      intro attempt h
      refine ⟨le_refl 0, by omega, ?_, ?_, ?_, fun _ => rfl, by simp [CallbackService.sendLoop]⟩
      · constructor
        · intro hres
          exact absurd hres (by simp [CallbackService.sendLoop])
        · rintro ⟨i, hi1, hi2, hi3⟩
          exact absurd hi2 (by omega)
      · intro hres
        exact absurd hres (by simp [CallbackService.sendLoop])
      · intro j hj
        exact absurd hj (by simp [CallbackService.sendLoop])
  | succ fuel ih =>
      intro attempt h
      cases hS : attemptSucceeds (outcomes attempt) with
      | true =>
          rw [unf_succ fuel attempt hS]
          refine ⟨show (1 : Nat) ≤ fuel + 1 by omega, fun _ => le_refl 1, ?_, ?_, ?_, ?_, by simp⟩
          · exact ⟨fun _ => ⟨attempt, le_refl _, by omega, hS⟩, fun _ => rfl⟩
          · intro _
            simpa using hS
          · intro j hj
            simp at hj
          · intro hfalse
            simp at hfalse
      | false =>
          by_cases hlt : attempt < retries - 1
          · rw [unf_mid fuel attempt hS hlt]
            obtain ⟨ih1, ih2, ih3, ih4, ih5, ih6, ih7⟩ := ih (attempt + 1) (by omega)
            have hfuel : 1 ≤ fuel := by omega
            have hrest : 1 ≤ (CallbackService.sendLoop retries outcomes
                (attempt + 1) fuel).attempts := ih2 hfuel
            refine ⟨Nat.succ_le_succ ih1, fun _ => Nat.succ_le_succ (Nat.zero_le _),
              ?_, ?_, ?_, ?_, ?_⟩
            · constructor
              · intro hres
                obtain ⟨i, hi1, hi2, hi3⟩ := ih3.mp hres
                exact ⟨i, by omega, hi2, hi3⟩
              · rintro ⟨i, hi1, hi2, hi3⟩
                rcases Nat.eq_or_lt_of_le hi1 with heq | hgt
                · rw [heq] at hS
                  rw [hi3] at hS
                  exact absurd hS (by simp)
                · exact ih3.mpr ⟨i, by omega, hi2, hi3⟩
            · intro hres
              have h4 := ih4 hres
              have heq : attempt + ((CallbackService.sendLoop retries outcomes
                  (attempt + 1) fuel).attempts + 1) - 1 =
                  attempt + 1 + (CallbackService.sendLoop retries outcomes
                    (attempt + 1) fuel).attempts - 1 := by omega
              rw [heq]
              exact h4
            · intro j hj
              have hj2 : j + 1 < (CallbackService.sendLoop retries outcomes
                  (attempt + 1) fuel).attempts + 1 := hj
              cases j with
              | zero => simpa using hS
              | succ j' =>
                  have heq : attempt + (j' + 1) = attempt + 1 + j' := by omega
                  rw [heq]
                  exact ih5 j' (by omega)
            · intro hres
              rw [ih6 hres]
            · rw [ih7]
              have h1 : (CallbackService.sendLoop retries outcomes
                  (attempt + 1) fuel).attempts + 1 - 1 =
                  (CallbackService.sendLoop retries outcomes
                    (attempt + 1) fuel).attempts := by omega
              rw [h1]
              obtain ⟨k, hk⟩ : ∃ k, (CallbackService.sendLoop retries outcomes
                  (attempt + 1) fuel).attempts = k + 1 :=
                ⟨(CallbackService.sendLoop retries outcomes
                  (attempt + 1) fuel).attempts - 1, by omega⟩
              rw [hk, List.range_succ_eq_map, List.map_cons, List.map_map]
              simp only [Nat.add_zero, Nat.add_sub_cancel]
              congr 1
              apply List.map_congr_left
              intro j _
              simp only [Function.comp_apply]
              congr 1
              omega
          · rw [unf_last fuel attempt hS hlt]
            have hfuel : fuel = 0 := by omega
            subst hfuel
            refine ⟨le_refl 1, fun _ => le_refl 1, ?_, ?_, ?_, fun _ => rfl, by simp⟩
            · constructor
              · intro hres
                exact absurd hres (by simp)
              · rintro ⟨i, hi1, hi2, hi3⟩
                have : i = attempt := by omega
                rw [this] at hi3
                rw [hS] at hi3
                exact absurd hi3 (by simp)
            · intro hres
              exact absurd hres (by simp)
            · intro j hj
              have hj2 : j + 1 < 1 := hj
              omega

/-- Claim C3: a started dispatcher makes at most `retries` attempts, returns
true exactly when some attempt in range answers HTTP 200 and then the
successful attempt is the first success, every earlier attempt having
failed; a full run of failures returns false after `retries` attempts; and
the executed sleeps are exactly `2 ^ attempt` for attempts
`0, 1, …` between attempts, never after the last. -/
theorem send_retry_spec (retries : Nat) (outcomes : Nat → AttemptOutcome) :
    (CallbackService.send retries true outcomes).attempts ≤ retries ∧
    ((CallbackService.send retries true outcomes).result = true ↔
      ∃ i, i < retries ∧ attemptSucceeds (outcomes i) = true) ∧
    ((CallbackService.send retries true outcomes).result = true →
      attemptSucceeds (outcomes
        ((CallbackService.send retries true outcomes).attempts - 1)) = true) ∧
    (∀ j, j + 1 < (CallbackService.send retries true outcomes).attempts →
      attemptSucceeds (outcomes j) = false) ∧
    ((CallbackService.send retries true outcomes).result = false →
      (CallbackService.send retries true outcomes).attempts = retries) ∧
    (CallbackService.send retries true outcomes).sleeps =
      (List.range ((CallbackService.send retries true outcomes).attempts - 1)).map
        (fun j => 2 ^ j) := by
  have hsend : CallbackService.send retries true outcomes =
      CallbackService.sendLoop retries outcomes 0 retries := by
    simp [CallbackService.send]
  obtain ⟨h1, _h2, h3, h4, h5, h6, h7⟩ :=
    sendLoop_spec retries outcomes retries 0 (by omega)
  rw [hsend]
  refine ⟨h1, ?_, ?_, ?_, h6, ?_⟩
  · rw [h3]
    constructor
    · rintro ⟨i, _, hi2, hi3⟩
      exact ⟨i, hi2, hi3⟩
    · rintro ⟨i, hi2, hi3⟩
      exact ⟨i, Nat.zero_le i, hi2, hi3⟩
  · intro hres
    have := h4 hres
    simpa using this
  · intro j hj
    have := h5 j hj
    simpa using this
  · rw [h7]
    apply List.map_congr_left
    intro j _
    simp

/-- Witness for C3: with 3 retries against a transport that times out twice
and then answers 200, `send` succeeds and sleeps 1 then 2 units between the
attempts. -/
theorem send_retry_spec_witness :
    (CallbackService.send 3 true outcomesW).result = true ∧
    (CallbackService.send 3 true outcomesW).attempts = 3 ∧
    (CallbackService.send 3 true outcomesW).sleeps = [1, 2] :=
  ⟨(send_retry_spec 3 outcomesW).2.1.mpr ⟨2, by decide, by decide⟩,
    by decide, by decide⟩

/-- `cancelTask` keeps the task list's length. -/
theorem cancelTask_length (tasks : List TaskRec) (tid : Nat) :
    (TypingService.cancelTask tasks tid).length = tasks.length := by
  unfold TypingService.cancelTask
  cases h : tasks[tid]? with
  | none => rfl
  | some rec =>
      by_cases hdone : rec.status = .done
      · simp [hdone]
      · simp [hdone]

/-- `cancelTask` acts only on index `tid`, flipping a not-yet-done task to
cancel-requested; keys, durations and every other entry are unchanged. -/
theorem cancelTask_getElem (tasks : List TaskRec) (tid i : Nat) :
    (TypingService.cancelTask tasks tid)[i]? =
      if i = tid then
        (tasks[tid]?).map (fun rec =>
          if rec.status = .done then rec
          else { rec with status := .cancelRequested })
      else tasks[i]? := by
  unfold TypingService.cancelTask
  cases h : tasks[tid]? with
  | none =>
      by_cases hi : i = tid
      · subst hi; simp [h]
      · simp [hi]
  | some rec =>
      by_cases hdone : rec.status = .done
      · by_cases hi : i = tid
        · subst hi; simp [h, hdone]
        · simp [hdone, hi]
      · have htid : tid < tasks.length := (List.getElem?_eq_some.mp h).1
        by_cases hi : i = tid
        · subst hi
          simp [hdone, List.getElem?_set_self htid, h]
        · simp [hdone, List.getElem?_set_ne (Ne.symm hi), hi]

/-- Unfolding of the source's liveness test `existing and not
existing.done()`. -/
theorem liveInRegistry_iff (s : TypingSys) (k : String) :
    TypingService.liveInRegistry s k = true ↔
      ∃ tid rec, s.registry k = some tid ∧ s.tasks[tid]? = some rec ∧
        rec.status ≠ TaskStatus.done := by
  unfold TypingService.liveInRegistry
  cases hreg : s.registry k with
  | none => simp
  | some tid =>
      cases htask : s.tasks[tid]? with
      | none => simp [htask]
      | some rec => simp [htask]

/-- `cancel_typing` preserves the typing invariant. -/
theorem typingInvariant_cancel (s : TypingSys) (c : String) (ok : Bool)
    (hs : TypingService.typingInvariant s) :
    TypingService.typingInvariant (TypingService.cancel_typing s c ok).1 := by
  obtain ⟨wf, uniq⟩ := hs
  by_cases hlive : TypingService.liveInRegistry s c = true
  · obtain ⟨etid, erec, hreg, htask, hnd⟩ := (liveInRegistry_iff s c).mp hlive
    have hred : (TypingService.cancel_typing s c ok).1 =
        { registry := s.registry
        , tasks := TypingService.cancelTask s.tasks etid
        , log := s.log ++ [.cancelAction c ok] } := by
      simp [TypingService.cancel_typing, hlive, hreg]
    rw [hred]
    constructor
    · intro k tid hk
      obtain ⟨rec, hrec, hkey⟩ := wf k tid hk
      rw [cancelTask_getElem]
      by_cases he : tid = etid
      · rw [if_pos he, ← he, hrec]
        refine ⟨_, rfl, ?_⟩
        by_cases hdn : rec.status = .done <;> simp [hdn, hkey]
      · rw [if_neg he]
        exact ⟨rec, hrec, hkey⟩
    · intro k tid hact
      obtain ⟨rec, hrec, hkey, hst⟩ := hact
      by_cases he : tid = etid
      · exfalso
        rw [cancelTask_getElem, if_pos he, htask] at hrec
        have hrec' : some (if erec.status = TaskStatus.done then erec
            else { erec with status := TaskStatus.cancelRequested }) = some rec := hrec
        rw [if_neg hnd] at hrec'
        obtain rfl := Option.some.inj hrec'
        rcases hst with hh | hh <;> simp at hh
      · rw [cancelTask_getElem, if_neg he] at hrec
        exact uniq k tid ⟨rec, hrec, hkey, hst⟩
  · have hlive' : TypingService.liveInRegistry s c = false := by
      simpa using hlive
    have hred : (TypingService.cancel_typing s c ok).1 =
        { registry := s.registry
        , tasks := s.tasks
        , log := s.log ++ [.cancelAction c ok] } := by
      simp [TypingService.cancel_typing, hlive']
    rw [hred]
    exact ⟨fun k tid hk => wf k tid hk, fun k tid hact => uniq k tid hact⟩

/-- `taskBegin` preserves the typing invariant. -/
theorem typingInvariant_begin (s : TypingSys) (tid : Nat)
    (hs : TypingService.typingInvariant s) :
    TypingService.typingInvariant (TypingService.taskBegin s tid) := by
  obtain ⟨wf, uniq⟩ := hs
  cases h : s.tasks[tid]? with
  | none =>
      have hred : TypingService.taskBegin s tid = s := by
        simp [TypingService.taskBegin, h]
      rw [hred]
      exact ⟨wf, uniq⟩
  | some rec =>
      by_cases hc : rec.status = .created
      · have hred : TypingService.taskBegin s tid =
            { registry := s.registry
            , tasks := s.tasks.set tid { rec with status := .started }
            , log := s.log ++ [.typing rec.chat_key] } := by
          simp [TypingService.taskBegin, h, hc]
        rw [hred]
        have htid : tid < s.tasks.length := (List.getElem?_eq_some.mp h).1
        constructor
        · intro k tid' hk
          obtain ⟨rec', hrec', hkey'⟩ := wf k tid' hk
          by_cases he : tid' = tid
          · subst he
            rw [hrec'] at h
            obtain rfl := Option.some.inj h
            rw [List.getElem?_set_self htid]
            exact ⟨_, rfl, hkey'⟩
          · rw [List.getElem?_set_ne (Ne.symm he)]
            exact ⟨rec', hrec', hkey'⟩
        · intro k tid' hact
          obtain ⟨rec', hrec', hkey', hst'⟩ := hact
          by_cases he : tid' = tid
          · subst he
            rw [List.getElem?_set_self htid] at hrec'
            obtain rfl := Option.some.inj hrec'
            exact uniq k tid' ⟨rec, h, hkey', Or.inl hc⟩
          · rw [List.getElem?_set_ne (Ne.symm he)] at hrec'
            exact uniq k tid' ⟨rec', hrec', hkey', hst'⟩
      · have hred : TypingService.taskBegin s tid = s := by
          simp [TypingService.taskBegin, h, hc]
        rw [hred]
        exact ⟨wf, uniq⟩

/-- `taskFinish` preserves the typing invariant. -/
theorem typingInvariant_finish (s : TypingSys) (tid : Nat) (ok : Bool)
    (hs : TypingService.typingInvariant s) :
    TypingService.typingInvariant (TypingService.taskFinish s tid ok) := by
  obtain ⟨wf, uniq⟩ := hs
  cases h : s.tasks[tid]? with
  | none =>
      have hred : TypingService.taskFinish s tid ok = s := by
        simp [TypingService.taskFinish, h]
      rw [hred]
      exact ⟨wf, uniq⟩
  | some rec =>
      by_cases hd : rec.status = .done
      · have hred : TypingService.taskFinish s tid ok = s := by
          simp [TypingService.taskFinish, h, hd]
        rw [hred]
        exact ⟨wf, uniq⟩
      · have htid : tid < s.tasks.length := (List.getElem?_eq_some.mp h).1
        by_cases hcond : s.registry rec.chat_key = some tid
        · have hred : TypingService.taskFinish s tid ok =
              { registry := TypingService.dictPop s.registry rec.chat_key
              , tasks := s.tasks.set tid { rec with status := .done }
              , log := s.log ++ [.cancelAction rec.chat_key ok] } := by
            simp [TypingService.taskFinish, h, hd, hcond]
          rw [hred]
          constructor
          · intro k tid' hk
            simp only [TypingService.dictPop] at hk
            by_cases hkc : k = rec.chat_key
            · rw [if_pos hkc] at hk
              exact absurd hk (by simp)
            · rw [if_neg hkc] at hk
              obtain ⟨rec', hrec', hkey'⟩ := wf k tid' hk
              by_cases he : tid' = tid
              · subst he
                rw [hrec'] at h
                obtain rfl := Option.some.inj h
                rw [List.getElem?_set_self htid]
                exact ⟨_, rfl, hkey'⟩
              · rw [List.getElem?_set_ne (Ne.symm he)]
                exact ⟨rec', hrec', hkey'⟩
          · intro k tid' hact
            obtain ⟨rec', hrec', hkey', hst'⟩ := hact
            by_cases he : tid' = tid
            · exfalso
              rw [he, List.getElem?_set_self htid] at hrec'
              obtain rfl := Option.some.inj hrec'
              rcases hst' with hh | hh <;> simp at hh
            · rw [List.getElem?_set_ne (Ne.symm he)] at hrec'
              have hregk := uniq k tid' ⟨rec', hrec', hkey', hst'⟩
              simp only [TypingService.dictPop]
              by_cases hkc : k = rec.chat_key
              · exfalso
                rw [hkc, hcond] at hregk
                exact he (Option.some.inj hregk).symm
              · rw [if_neg hkc]
                exact hregk
        · have hred : TypingService.taskFinish s tid ok =
              { registry := s.registry
              , tasks := s.tasks.set tid { rec with status := .done }
              , log := s.log ++ [.cancelAction rec.chat_key ok] } := by
            simp [TypingService.taskFinish, h, hd, hcond]
          rw [hred]
          constructor
          · intro k tid' hk
            obtain ⟨rec', hrec', hkey'⟩ := wf k tid' hk
            by_cases he : tid' = tid
            · subst he
              rw [hrec'] at h
              obtain rfl := Option.some.inj h
              rw [List.getElem?_set_self htid]
              exact ⟨_, rfl, hkey'⟩
            · rw [List.getElem?_set_ne (Ne.symm he)]
              exact ⟨rec', hrec', hkey'⟩
          · intro k tid' hact
            obtain ⟨rec', hrec', hkey', hst'⟩ := hact
            by_cases he : tid' = tid
            · exfalso
              rw [he, List.getElem?_set_self htid] at hrec'
              obtain rfl := Option.some.inj hrec'
              rcases hst' with hh | hh <;> simp at hh
            · rw [List.getElem?_set_ne (Ne.symm he)] at hrec'
              exact uniq k tid' ⟨rec', hrec', hkey', hst'⟩

/-- `start_typing` preserves the typing invariant. -/
theorem typingInvariant_start (s : TypingSys) (c : String) (d : Nat)
    (hs : TypingService.typingInvariant s) :
    TypingService.typingInvariant (TypingService.start_typing s c d) := by
  obtain ⟨wf, uniq⟩ := hs
  by_cases hlive : TypingService.liveInRegistry s c = true
  · obtain ⟨etid, erec, hreg, htask, hnd⟩ := (liveInRegistry_iff s c).mp hlive
    have hred : TypingService.start_typing s c d =
        { registry := TypingService.dictSet s.registry c
            (TypingService.cancelTask s.tasks etid).length
        , tasks := TypingService.cancelTask s.tasks etid ++
            [{ chat_key := c, duration := d, status := .created }]
        , log := s.log } := by
      simp [TypingService.start_typing, hlive, hreg]
    rw [hred]
    constructor
    · intro k tid hk
      simp only [TypingService.dictSet] at hk
      by_cases hkc : k = c
      · rw [if_pos hkc] at hk
        obtain rfl : (TypingService.cancelTask s.tasks etid).length = tid :=
          Option.some.inj hk
        exact ⟨{ chat_key := c, duration := d, status := .created },
          List.getElem?_concat_length _ _, hkc.symm⟩
      · rw [if_neg hkc] at hk
        obtain ⟨rec, hrec, hkey⟩ := wf k tid hk
        have htid : tid < s.tasks.length := (List.getElem?_eq_some.mp hrec).1
        have htid₀ : tid < (TypingService.cancelTask s.tasks etid).length := by
          rw [cancelTask_length]; exact htid
        have happ : (TypingService.cancelTask s.tasks etid ++
            [{ chat_key := c, duration := d, status := TaskStatus.created }])[tid]? =
            (TypingService.cancelTask s.tasks etid)[tid]? := by
          rw [List.getElem?_append, if_pos htid₀]
        rw [happ, cancelTask_getElem]
        by_cases he : tid = etid
        · rw [if_pos he, ← he, hrec]
          refine ⟨_, rfl, ?_⟩
          by_cases hdn : rec.status = .done <;> simp [hdn, hkey]
        · rw [if_neg he]
          exact ⟨rec, hrec, hkey⟩
    · intro k tid hact
      obtain ⟨rec, hrec, hkey, hst⟩ := hact
      simp only [TypingService.dictSet]
      by_cases he : tid = (TypingService.cancelTask s.tasks etid).length
      · subst he
        rw [List.getElem?_concat_length] at hrec
        obtain rfl : { chat_key := c, duration := d, status := TaskStatus.created } = rec :=
          Option.some.inj hrec
        rw [if_pos hkey.symm]
      · have htid₀ : tid < (TypingService.cancelTask s.tasks etid).length := by
          have h1 := (List.getElem?_eq_some.mp hrec).1
          rw [List.length_append] at h1
          simp only [List.length_singleton] at h1
          omega
        have happ : (TypingService.cancelTask s.tasks etid ++
            [{ chat_key := c, duration := d, status := TaskStatus.created }])[tid]? =
            (TypingService.cancelTask s.tasks etid)[tid]? := by
          rw [List.getElem?_append, if_pos htid₀]
        rw [happ] at hrec
        by_cases hee : tid = etid
        · exfalso
          rw [cancelTask_getElem, if_pos hee, htask] at hrec
          have hrec' : some (if erec.status = TaskStatus.done then erec
              else { erec with status := TaskStatus.cancelRequested }) = some rec := hrec
          rw [if_neg hnd] at hrec'
          obtain rfl := Option.some.inj hrec'
          rcases hst with hh | hh <;> simp at hh
        · rw [cancelTask_getElem, if_neg hee] at hrec
          have hregk := uniq k tid ⟨rec, hrec, hkey, hst⟩
          by_cases hkc : k = c
          · exfalso
            rw [hkc, hreg] at hregk
            exact hee (Option.some.inj hregk).symm
          · rw [if_neg hkc]
            exact hregk
  · have hlive' : TypingService.liveInRegistry s c = false := by
      simpa using hlive
    have hred : TypingService.start_typing s c d =
        { registry := TypingService.dictSet s.registry c s.tasks.length
        , tasks := s.tasks ++
            [{ chat_key := c, duration := d, status := .created }]
        , log := s.log } := by
      simp [TypingService.start_typing, hlive']
    rw [hred]
    constructor
    · intro k tid hk
      simp only [TypingService.dictSet] at hk
      by_cases hkc : k = c
      · rw [if_pos hkc] at hk
        obtain rfl : s.tasks.length = tid := Option.some.inj hk
        exact ⟨{ chat_key := c, duration := d, status := .created },
          List.getElem?_concat_length _ _, hkc.symm⟩
      · rw [if_neg hkc] at hk
        obtain ⟨rec, hrec, hkey⟩ := wf k tid hk
        have htid : tid < s.tasks.length := (List.getElem?_eq_some.mp hrec).1
        have happ : (s.tasks ++
            [{ chat_key := c, duration := d, status := TaskStatus.created }])[tid]? =
            s.tasks[tid]? := by
          rw [List.getElem?_append, if_pos htid]
        rw [happ]
        exact ⟨rec, hrec, hkey⟩
    · intro k tid hact
      obtain ⟨rec, hrec, hkey, hst⟩ := hact
      simp only [TypingService.dictSet]
      by_cases he : tid = s.tasks.length
      · subst he
        rw [List.getElem?_concat_length] at hrec
        obtain rfl : { chat_key := c, duration := d, status := TaskStatus.created } = rec :=
          Option.some.inj hrec
        rw [if_pos hkey.symm]
      · have htid : tid < s.tasks.length := by
          have h1 := (List.getElem?_eq_some.mp hrec).1
          rw [List.length_append] at h1
          simp only [List.length_singleton] at h1
          omega
        have happ : (s.tasks ++
            [{ chat_key := c, duration := d, status := TaskStatus.created }])[tid]? =
            s.tasks[tid]? := by
          rw [List.getElem?_append, if_pos htid]
        rw [happ] at hrec
        have hregk := uniq k tid ⟨rec, hrec, hkey, hst⟩
        by_cases hkc : k = c
        · exfalso
          apply Bool.false_ne_true
          rw [← hlive']
          apply (liveInRegistry_iff s c).mpr
          refine ⟨tid, rec, ?_, hrec, ?_⟩
          · rw [← hkc]; exact hregk
          · rcases hst with hh | hh <;> simp [hh]
        · rw [if_neg hkc]
          exact hregk

/-- Every step of the typing subsystem preserves the invariant. -/
theorem typingStep_invariant (s : TypingSys) (e : TypingService.TypingEvent)
    (hs : TypingService.typingInvariant s) :
    TypingService.typingInvariant (TypingService.typingStep s e) := by
  cases e with
  | start c d => exact typingInvariant_start s c d hs
  | cancel c ok => exact typingInvariant_cancel s c ok hs
  | begin_ tid => exact typingInvariant_begin s tid hs
  | finish tid ok => exact typingInvariant_finish s tid ok hs

/-- The empty initial state satisfies the typing invariant. -/
theorem initTyping_invariant :
    TypingService.typingInvariant TypingService.initTyping := by
  constructor
  · intro k tid hk
    simp [TypingService.initTyping] at hk
  · rintro k tid ⟨rec, hrec, -⟩
    simp [TypingService.initTyping] at hrec

/-- Every reachable state of the typing subsystem satisfies the invariant. -/
theorem runTyping_invariant (evs : List TypingService.TypingEvent) :
    TypingService.typingInvariant (TypingService.runTyping evs) := by
  suffices h : ∀ (evs : List TypingService.TypingEvent) (s : TypingSys),
      TypingService.typingInvariant s →
      TypingService.typingInvariant (evs.foldl TypingService.typingStep s) from
    h evs TypingService.initTyping initTyping_invariant
  intro evs
  induction evs with
  | nil => exact fun s hs => hs
  | cons e evs ih => exact fun s hs => ih _ (typingStep_invariant s e hs)

/-- Claim C4: in every reachable state there is at most one live (neither
done nor cancel-requested) typing task per chat key; a `start_typing` over a
live registry task cancels that exact task before registering a brand-new
task under a fresh id; and a finishing task pops the registry entry only
when the registry still maps its key to that exact task — a superseded task
leaves the whole registry untouched — while its terminal best-effort
transport cancel is always emitted. -/
theorem typing_reset_policy :
    (∀ evs k i j,
      TypingService.activeFor (TypingService.runTyping evs) k i →
      TypingService.activeFor (TypingService.runTyping evs) k j → i = j) ∧
    (∀ s k d tid rec, s.registry k = some tid → s.tasks[tid]? = some rec →
      rec.status ≠ TaskStatus.done →
      (TypingService.start_typing s k d).tasks[tid]? =
        some { rec with status := TaskStatus.cancelRequested } ∧
      (TypingService.start_typing s k d).registry k = some s.tasks.length ∧
      (TypingService.start_typing s k d).tasks[s.tasks.length]? =
        some { chat_key := k, duration := d, status := TaskStatus.created } ∧
      tid ≠ s.tasks.length) ∧
    (∀ s tid ok rec, s.tasks[tid]? = some rec →
      (s.registry rec.chat_key ≠ some tid →
        ∀ k, (TypingService.taskFinish s tid ok).registry k = s.registry k) ∧
      (rec.status ≠ TaskStatus.done → s.registry rec.chat_key = some tid →
        (TypingService.taskFinish s tid ok).registry rec.chat_key = none) ∧
      (rec.status ≠ TaskStatus.done →
        (TypingService.taskFinish s tid ok).log =
          s.log ++ [.cancelAction rec.chat_key ok])) := by
  refine ⟨?_, ?_, ?_⟩
  · intro evs k i j hi hj
    have inv := runTyping_invariant evs
    have h1 := inv.2 k i hi
    have h2 := inv.2 k j hj
    rw [h1] at h2
    exact Option.some.inj h2
  · intro s k d tid rec hreg htask hnd
    have hlive : TypingService.liveInRegistry s k = true :=
      (liveInRegistry_iff s k).mpr ⟨tid, rec, hreg, htask, hnd⟩
    have hred : TypingService.start_typing s k d =
        { registry := TypingService.dictSet s.registry k
            (TypingService.cancelTask s.tasks tid).length
        , tasks := TypingService.cancelTask s.tasks tid ++
            [{ chat_key := k, duration := d, status := .created }]
        , log := s.log } := by
      simp [TypingService.start_typing, hlive, hreg]
    have htid : tid < s.tasks.length := (List.getElem?_eq_some.mp htask).1
    have hlen : (TypingService.cancelTask s.tasks tid).length = s.tasks.length :=
      cancelTask_length s.tasks tid
    rw [hred]
    refine ⟨?_, ?_, ?_, by omega⟩
    · have happ : (TypingService.cancelTask s.tasks tid ++
          [{ chat_key := k, duration := d, status := TaskStatus.created }])[tid]? =
          (TypingService.cancelTask s.tasks tid)[tid]? := by
        rw [List.getElem?_append, if_pos (by omega)]
      rw [happ, cancelTask_getElem, if_pos rfl, htask]
      have : some (if rec.status = TaskStatus.done then rec
          else { rec with status := TaskStatus.cancelRequested }) =
          some { rec with status := TaskStatus.cancelRequested } := by
        rw [if_neg hnd]
      exact this
    · simp [TypingService.dictSet, hlen]
    · rw [← hlen]
      exact List.getElem?_concat_length _ _
  · intro s tid ok rec htask
    refine ⟨?_, ?_, ?_⟩
    · intro hno k
      by_cases hd : rec.status = .done
      · have hred : TypingService.taskFinish s tid ok = s := by
          simp [TypingService.taskFinish, htask, hd]
        rw [hred]
      · have hred : TypingService.taskFinish s tid ok =
            { registry := s.registry
            , tasks := s.tasks.set tid { rec with status := .done }
            , log := s.log ++ [.cancelAction rec.chat_key ok] } := by
          simp [TypingService.taskFinish, htask, hd, hno]
        rw [hred]
    · intro hnd hcond
      have hred : TypingService.taskFinish s tid ok =
          { registry := TypingService.dictPop s.registry rec.chat_key
          , tasks := s.tasks.set tid { rec with status := .done }
          , log := s.log ++ [.cancelAction rec.chat_key ok] } := by
        simp [TypingService.taskFinish, htask, hnd, hcond]
      rw [hred]
      simp [TypingService.dictPop]
    · intro hnd
      by_cases hcond : s.registry rec.chat_key = some tid
      · have hred : TypingService.taskFinish s tid ok =
            { registry := TypingService.dictPop s.registry rec.chat_key
            , tasks := s.tasks.set tid { rec with status := .done }
            , log := s.log ++ [.cancelAction rec.chat_key ok] } := by
          simp [TypingService.taskFinish, htask, hnd, hcond]
        rw [hred]
      · have hred : TypingService.taskFinish s tid ok =
            { registry := s.registry
            , tasks := s.tasks.set tid { rec with status := .done }
            , log := s.log ++ [.cancelAction rec.chat_key ok] } := by
          simp [TypingService.taskFinish, htask, hnd, hcond]
        rw [hred]

/-- Witness for C4: after `start_typing "k" 5`, a second `start_typing` for
`"k"` cancels task 0 and registers the new task 1. -/
theorem typing_reset_policy_witness :
    (TypingService.start_typing (TypingService.runTyping
        [.start "k" 5]) "k" 7).tasks[0]? =
      some { chat_key := "k", duration := 5
           , status := TaskStatus.cancelRequested } ∧
    (TypingService.start_typing (TypingService.runTyping
        [.start "k" 5]) "k" 7).registry "k" = some 1 :=
  ⟨(typing_reset_policy.2.1 (TypingService.runTyping [.start "k" 5]) "k" 7 0
      { chat_key := "k", duration := 5, status := TaskStatus.created }
      (by decide) (by decide) (by decide)).1,
   (typing_reset_policy.2.1 (TypingService.runTyping [.start "k" 5]) "k" 7 0
      { chat_key := "k", duration := 5, status := TaskStatus.created }
      (by decide) (by decide) (by decide)).2.1⟩

/-- Claim C7: `cancel_typing` returns true exactly when the registry holds a
not-yet-done task for the key — which is then asked to cancel — and in every
case appends exactly one best-effort transport cancel whose failure is
swallowed and does not change the returned value. -/
theorem cancel_typing_spec (s : TypingSys) (chat_id : String) (ok : Bool) :
    ((TypingService.cancel_typing s chat_id ok).2 = true ↔
      ∃ tid rec, s.registry chat_id = some tid ∧ s.tasks[tid]? = some rec ∧
        rec.status ≠ TaskStatus.done) ∧
    ((TypingService.cancel_typing s chat_id ok).1.log =
      s.log ++ [.cancelAction chat_id ok]) ∧
    ((TypingService.cancel_typing s chat_id true).2 =
      (TypingService.cancel_typing s chat_id false).2) ∧
    (∀ tid, s.registry chat_id = some tid →
      (TypingService.cancel_typing s chat_id ok).2 = true →
      ((TypingService.cancel_typing s chat_id ok).1.tasks[tid]?).map
        TaskRec.status = some TaskStatus.cancelRequested) := by
  refine ⟨liveInRegistry_iff s chat_id, rfl, rfl, ?_⟩
  intro tid hreg hret
  have hlive : TypingService.liveInRegistry s chat_id = true := hret
  obtain ⟨etid, erec, hreg', htask, hnd⟩ := (liveInRegistry_iff s chat_id).mp hlive
  have heq : tid = etid := by
    rw [hreg] at hreg'
    exact Option.some.inj hreg'
  rw [heq]
  have hred : (TypingService.cancel_typing s chat_id ok).1.tasks =
      TypingService.cancelTask s.tasks etid := by
    simp [TypingService.cancel_typing, hlive, hreg, heq]
  rw [hred, cancelTask_getElem, if_pos rfl, htask]
  have : (some (if erec.status = TaskStatus.done then erec
      else { erec with status := TaskStatus.cancelRequested })).map TaskRec.status =
      some TaskStatus.cancelRequested := by
    rw [if_neg hnd]
    rfl
  exact this

/-- Witness for C7: cancelling with an empty registry still logs the
transport cancel and reports no registry task. -/
theorem cancel_typing_spec_witness :
    (TypingService.cancel_typing TypingService.initTyping "k" true).1.log =
      TypingService.initTyping.log ++ [.cancelAction "k" true] :=
  (cancel_typing_spec TypingService.initTyping "k" true).2.1

/-- Claim C10: `cancel_typing` never mutates the registry map — every key
maps to the same task id afterwards — and across every event of the typing
subsystem, a registry entry changes only by `start_typing` for that key or
by the finish of the exact task the key was mapped to. -/
theorem cancel_typing_registry_frame :
    (∀ s chat_id ok k,
      (TypingService.cancel_typing s chat_id ok).1.registry k = s.registry k) ∧
    (∀ s e k,
      (TypingService.typingStep s e).registry k ≠ s.registry k →
      (∃ d, e = TypingService.TypingEvent.start k d) ∨
      (∃ tid ok, e = TypingService.TypingEvent.finish tid ok ∧
        s.registry k = some tid)) := by
  constructor
  · intro s c ok k
    rfl
  · intro s e k hne
    cases e with
    | start c d =>
        left
        by_cases hkc : k = c
        · subst hkc
          exact ⟨d, rfl⟩
        · exfalso
          apply hne
          show (TypingService.start_typing s c d).registry k = s.registry k
          simp only [TypingService.start_typing, TypingService.dictSet]
          rw [if_neg hkc]
    | cancel c ok => exact absurd rfl hne
    | begin_ tid =>
        exfalso
        apply hne
        show (TypingService.taskBegin s tid).registry k = s.registry k
        cases h : s.tasks[tid]? with
        | none => simp [TypingService.taskBegin, h]
        | some rec =>
            by_cases hc : rec.status = .created <;>
              simp [TypingService.taskBegin, h, hc]
    | finish tid ok =>
        right
        refine ⟨tid, ok, rfl, ?_⟩
        by_contra hno
        apply hne
        show (TypingService.taskFinish s tid ok).registry k = s.registry k
        cases h : s.tasks[tid]? with
        | none => simp [TypingService.taskFinish, h]
        | some rec =>
            by_cases hd : rec.status = .done
            · simp [TypingService.taskFinish, h, hd]
            · by_cases hcond : s.registry rec.chat_key = some tid
              · have hkne : k ≠ rec.chat_key := fun hh => hno (hh ▸ hcond)
                simp [TypingService.taskFinish, h, hd, hcond,
                  TypingService.dictPop, hkne]
              · simp [TypingService.taskFinish, h, hd, hcond]

/-- Witness for C10: a concrete `cancel_typing` leaves the registry entry of
its own key in place. -/
theorem cancel_typing_registry_frame_witness :
    (TypingService.cancel_typing (TypingService.runTyping
        [.start "k" 5]) "k" true).1.registry "k" =
      (TypingService.runTyping [.start "k" 5]).registry "k" :=
  cancel_typing_registry_frame.1 (TypingService.runTyping [.start "k" 5]) "k" true "k"

/-- `cancelTimer` keeps the timer list's length. -/
theorem cancelTimer_length (timers : List TimerRec) (tid : Nat) :
    (GroupBuffer.cancelTimer timers tid).length = timers.length := by
  unfold GroupBuffer.cancelTimer
  cases h : timers[tid]? with
  | none => rfl
  | some rec =>
      by_cases hsl : rec.status = .sleeping
      · simp [hsl]
      · simp [hsl]

/-- `cancelTimer` acts only on index `tid`, flipping a sleeping timer to
cancelled; group ids and every other entry are unchanged. -/
theorem cancelTimer_getElem (timers : List TimerRec) (tid i : Nat) :
    (GroupBuffer.cancelTimer timers tid)[i]? =
      if i = tid then
        (timers[tid]?).map (fun rec =>
          if rec.status = .sleeping then { rec with status := .cancelled }
          else rec)
      else timers[i]? := by
  unfold GroupBuffer.cancelTimer
  cases h : timers[tid]? with
  | none =>
      by_cases hi : i = tid
      · subst hi; simp [h]
      · simp [hi]
  | some rec =>
      by_cases hsl : rec.status = .sleeping
      · have htid : tid < timers.length := (List.getElem?_eq_some.mp h).1
        by_cases hi : i = tid
        · subst hi
          simp [hsl, List.getElem?_set_self htid, h]
        · simp [hsl, List.getElem?_set_ne (Ne.symm hi), hi]
      · by_cases hi : i = tid
        · subst hi; simp [h, hsl]
        · simp [hsl, hi]


/-- Projections of a message arrival when the group had no buffer yet: the
buffer map changes at `g` only, one fresh sleeping timer is appended, and
nothing is dispatched. -/
theorem handle_proj_none (s : GroupSys) (g : String) (m : Nat)
    (hbuf : s.buffers g = none) :
    (∀ g', (GroupBuffer.handle_media_group_message s g m).buffers g' =
      if g' = g then
        some { messages := [m], timer_task := some s.timers.length }
      else s.buffers g') ∧
    ((GroupBuffer.handle_media_group_message s g m).timers =
      s.timers ++ [{ group_id := g, status := .sleeping }]) ∧
    ((GroupBuffer.handle_media_group_message s g m).dispatched =
      s.dispatched) := by
  have hred : GroupBuffer.handle_media_group_message s g m =
      { buffers := fun g' => if g' = g then
          some { messages := [m], timer_task := some s.timers.length }
          else s.buffers g'
      , timers := s.timers ++ [{ group_id := g, status := .sleeping }]
      , dispatched := s.dispatched } := by
    simp [GroupBuffer.handle_media_group_message, hbuf]
  rw [hred]
  exact ⟨fun g' => rfl, rfl, rfl⟩

/-- Projections of a message arrival when the group already had a buffer
pointing at timer `otid`: the message is appended, that timer is cancelled,
one fresh sleeping timer is appended, nothing is dispatched. -/
theorem handle_proj_some (s : GroupSys) (g : String) (m : Nat) (b : GroupBuf)
    (otid : Nat) (hbuf : s.buffers g = some b)
    (hptr : b.timer_task = some otid) :
    (∀ g', (GroupBuffer.handle_media_group_message s g m).buffers g' =
      if g' = g then
        some { messages := b.messages ++ [m]
             , timer_task :=
                 some (GroupBuffer.cancelTimer s.timers otid).length }
      else s.buffers g') ∧
    ((GroupBuffer.handle_media_group_message s g m).timers =
      GroupBuffer.cancelTimer s.timers otid ++
        [{ group_id := g, status := .sleeping }]) ∧
    ((GroupBuffer.handle_media_group_message s g m).dispatched =
      s.dispatched) := by
  have hred : GroupBuffer.handle_media_group_message s g m =
      { buffers := fun g' => if g' = g then
          some { messages := b.messages ++ [m]
               , timer_task :=
                   some (GroupBuffer.cancelTimer s.timers otid).length }
          else s.buffers g'
      , timers := GroupBuffer.cancelTimer s.timers otid ++
          [{ group_id := g, status := .sleeping }]
      , dispatched := s.dispatched } := by
    simp [GroupBuffer.handle_media_group_message, hbuf, hptr]
  rw [hred]
  exact ⟨fun g' => rfl, rfl, rfl⟩

/-- A message arrival preserves the group invariant. -/
theorem groupInvariant_arrive (s : GroupSys) (g : String) (m : Nat)
    (hs : GroupBuffer.groupInvariant s) :
    GroupBuffer.groupInvariant (GroupBuffer.handle_media_group_message s g m) := by
  obtain ⟨wf, uniq⟩ := hs
  cases hbuf : s.buffers g with
  | none =>
      obtain ⟨hbufs, htims, -⟩ := handle_proj_none s g m hbuf
      constructor
      · intro g' buf' hb
        rw [hbufs g'] at hb
        by_cases hg : g' = g
        · rw [if_pos hg] at hb
          obtain rfl := Option.some.inj hb
          refine ⟨s.timers.length, { group_id := g, status := .sleeping },
            rfl, ?_, hg.symm⟩
          rw [htims]
          exact List.getElem?_concat_length _ _
        · rw [if_neg hg] at hb
          obtain ⟨tid, rec, hp, ht, hgr⟩ := wf g' buf' hb
          have htid : tid < s.timers.length := (List.getElem?_eq_some.mp ht).1
          refine ⟨tid, rec, hp, ?_, hgr⟩
          rw [htims, List.getElem?_append, if_pos htid]
          exact ht
      · intro g' tid hsl
        obtain ⟨rec, ht, hgr, hst⟩ := hsl
        rw [htims] at ht
        by_cases he : tid = s.timers.length
        · subst he
          rw [List.getElem?_concat_length] at ht
          obtain rfl := Option.some.inj ht
          refine ⟨{ messages := [m], timer_task := some s.timers.length },
            ?_, rfl⟩
          rw [hbufs g', if_pos hgr.symm]
        · have htid : tid < s.timers.length := by
            have h1 := (List.getElem?_eq_some.mp ht).1
            rw [List.length_append] at h1
            simp only [List.length_singleton] at h1
            omega
          rw [List.getElem?_append, if_pos htid] at ht
          obtain ⟨buf'', hb'', hp''⟩ := uniq g' tid ⟨rec, ht, hgr, hst⟩
          by_cases hg : g' = g
          · exfalso
            rw [hg, hbuf] at hb''
            exact Option.noConfusion hb''
          · refine ⟨buf'', ?_, hp''⟩
            rw [hbufs g', if_neg hg]
            exact hb''
  | some b =>
      obtain ⟨otid, orec, hptr, hot, hog⟩ := wf g b hbuf
      obtain ⟨hbufs, htims, -⟩ := handle_proj_some s g m b otid hbuf hptr
      have hlen : (GroupBuffer.cancelTimer s.timers otid).length =
          s.timers.length := cancelTimer_length s.timers otid
      constructor
      · intro g' buf' hb
        rw [hbufs g'] at hb
        by_cases hg : g' = g
        · rw [if_pos hg] at hb
          obtain rfl := Option.some.inj hb
          refine ⟨(GroupBuffer.cancelTimer s.timers otid).length,
            { group_id := g, status := .sleeping }, rfl, ?_, hg.symm⟩
          rw [htims]
          exact List.getElem?_concat_length _ _
        · rw [if_neg hg] at hb
          obtain ⟨tid, rec, hp, ht, hgr⟩ := wf g' buf' hb
          have htid : tid < s.timers.length := (List.getElem?_eq_some.mp ht).1
          by_cases he : tid = otid
          · exfalso
            rw [he, hot] at ht
            obtain rfl := Option.some.inj ht
            exact hg (hgr.symm.trans hog)
          · refine ⟨tid, rec, hp, ?_, hgr⟩
            rw [htims, List.getElem?_append, if_pos (by omega),
              cancelTimer_getElem, if_neg he]
            exact ht
      · intro g' tid hsl
        obtain ⟨rec, ht, hgr, hst⟩ := hsl
        rw [htims] at ht
        by_cases he : tid = (GroupBuffer.cancelTimer s.timers otid).length
        · subst he
          rw [List.getElem?_concat_length] at ht
          obtain rfl := Option.some.inj ht
          refine ⟨{ messages := b.messages ++ [m]
                  , timer_task :=
                      some (GroupBuffer.cancelTimer s.timers otid).length },
            ?_, rfl⟩
          rw [hbufs g', if_pos hgr.symm]
        · have htid : tid < s.timers.length := by
            have h1 := (List.getElem?_eq_some.mp ht).1
            rw [List.length_append] at h1
            simp only [List.length_singleton] at h1
            omega
          rw [List.getElem?_append, if_pos (by omega), cancelTimer_getElem] at ht
          by_cases hee : tid = otid
          · exfalso
            rw [if_pos hee, hot] at ht
            have ht' : some (if orec.status = TimerStatus.sleeping then
                { orec with status := TimerStatus.cancelled } else orec) =
                some rec := ht
            by_cases ho : orec.status = .sleeping
            · rw [if_pos ho] at ht'
              obtain rfl := Option.some.inj ht'
              simp at hst
            · rw [if_neg ho] at ht'
              obtain rfl := Option.some.inj ht'
              exact ho hst
          · rw [if_neg hee] at ht
            obtain ⟨buf'', hb'', hp''⟩ := uniq g' tid ⟨rec, ht, hgr, hst⟩
            by_cases hg : g' = g
            · exfalso
              rw [hg, hbuf] at hb''
              obtain rfl := Option.some.inj hb''
              rw [hptr] at hp''
              exact hee (Option.some.inj hp'').symm
            · refine ⟨buf'', ?_, hp''⟩
              rw [hbufs g', if_neg hg]
              exact hb''

/-- A timer firing preserves the group invariant. -/
theorem groupInvariant_fire (s : GroupSys) (tid : Nat)
    (hs : GroupBuffer.groupInvariant s) :
    GroupBuffer.groupInvariant (GroupBuffer.timerFire s tid) := by
  obtain ⟨wf, uniq⟩ := hs
  cases h : s.timers[tid]? with
  | none =>
      have hred : GroupBuffer.timerFire s tid = s := by
        simp [GroupBuffer.timerFire, h]
      rw [hred]
      exact ⟨wf, uniq⟩
  | some rec =>
      by_cases hsl : rec.status = .sleeping
      · obtain ⟨buf, hbuf, hp⟩ := uniq rec.group_id tid ⟨rec, h, rfl, hsl⟩
        have htid : tid < s.timers.length := (List.getElem?_eq_some.mp h).1
        have hproj : (∀ g', (GroupBuffer.timerFire s tid).buffers g' =
            if g' = rec.group_id then none else s.buffers g') ∧
            (GroupBuffer.timerFire s tid).timers =
              s.timers.set tid { rec with status := .fired } := by
          by_cases hemp : buf.messages = []
          · have hred : GroupBuffer.timerFire s tid =
                { buffers := fun g' =>
                    if g' = rec.group_id then none else s.buffers g'
                , timers := s.timers.set tid { rec with status := .fired }
                , dispatched := s.dispatched } := by
              simp [GroupBuffer.timerFire, h, hsl,
                GroupBuffer.process_media_group, hbuf, hemp]
            rw [hred]
            exact ⟨fun g' => rfl, rfl⟩
          · have hred : GroupBuffer.timerFire s tid =
                { buffers := fun g' =>
                    if g' = rec.group_id then none else s.buffers g'
                , timers := s.timers.set tid { rec with status := .fired }
                , dispatched :=
                    s.dispatched ++ [(rec.group_id, buf.messages)] } := by
              simp [GroupBuffer.timerFire, h, hsl,
                GroupBuffer.process_media_group, hbuf, hemp]
            rw [hred]
            exact ⟨fun g' => rfl, rfl⟩
        constructor
        · intro g' buf' hb
          rw [hproj.1 g'] at hb
          by_cases hg : g' = rec.group_id
          · rw [if_pos hg] at hb
            exact Option.noConfusion hb
          · rw [if_neg hg] at hb
            obtain ⟨tid', rec', hp', ht', hgr'⟩ := wf g' buf' hb
            by_cases he : tid' = tid
            · exfalso
              rw [he, h] at ht'
              obtain rfl := Option.some.inj ht'
              exact hg hgr'.symm
            · refine ⟨tid', rec', hp', ?_, hgr'⟩
              rw [hproj.2, List.getElem?_set_ne (Ne.symm he)]
              exact ht'
        · intro g' tid' hsl'
          obtain ⟨rec', ht', hgr', hst'⟩ := hsl'
          rw [hproj.2] at ht'
          by_cases he : tid' = tid
          · exfalso
            rw [he, List.getElem?_set_self htid] at ht'
            obtain rfl := Option.some.inj ht'
            simp at hst'
          · rw [List.getElem?_set_ne (Ne.symm he)] at ht'
            obtain ⟨buf₂, hb₂, hp₂⟩ := uniq g' tid' ⟨rec', ht', hgr', hst'⟩
            by_cases hg : g' = rec.group_id
            · exfalso
              rw [hg, hbuf] at hb₂
              obtain rfl := Option.some.inj hb₂
              rw [hp] at hp₂
              exact he (Option.some.inj hp₂).symm
            · refine ⟨buf₂, ?_, hp₂⟩
              rw [hproj.1 g', if_neg hg]
              exact hb₂
      · have hred : GroupBuffer.timerFire s tid = s := by
          simp [GroupBuffer.timerFire, h, hsl]
        rw [hred]
        exact ⟨wf, uniq⟩

/-- Client shutdown (cancel all pending timers) preserves the group
invariant. -/
theorem groupInvariant_stop (s : GroupSys)
    (hs : GroupBuffer.groupInvariant s) :
    GroupBuffer.groupInvariant (GroupBuffer.stopAll s) := by
  obtain ⟨wf, uniq⟩ := hs
  constructor
  · intro g buf hb
    have hb' : s.buffers g = some buf := hb
    obtain ⟨tid, rec, hp, ht, hgr⟩ := wf g buf hb'
    refine ⟨tid, if rec.status = .sleeping then
      { rec with status := .cancelled } else rec, hp, ?_, ?_⟩
    · show (s.timers.map (fun rec =>
        if rec.status = .sleeping then { rec with status := .cancelled }
        else rec))[tid]? = _
      rw [List.getElem?_map, ht]
      rfl
    · by_cases hr : rec.status = .sleeping <;> simp [hr, hgr]
  · intro g tid hsl
    obtain ⟨rec, ht, hgr, hst⟩ := hsl
    exfalso
    have ht' : (s.timers.map (fun rec =>
        if rec.status = .sleeping then { rec with status := .cancelled }
        else rec))[tid]? = some rec := ht
    rw [List.getElem?_map] at ht'
    cases h0 : s.timers[tid]? with
    | none =>
        rw [h0] at ht'
        exact Option.noConfusion ht'
    | some rec0 =>
        rw [h0] at ht'
        have ht'' : some (if rec0.status = TimerStatus.sleeping then
            { rec0 with status := TimerStatus.cancelled } else rec0) =
            some rec := ht'
        by_cases hr : rec0.status = .sleeping
        · rw [if_pos hr] at ht''
          obtain rfl := Option.some.inj ht''
          simp at hst
        · rw [if_neg hr] at ht''
          obtain rfl := Option.some.inj ht''
          exact hr hst

/-- Every step of the media-group subsystem preserves the invariant. -/
theorem groupStep_invariant (s : GroupSys) (e : GroupBuffer.GroupEvent)
    (hs : GroupBuffer.groupInvariant s) :
    GroupBuffer.groupInvariant (GroupBuffer.groupStep s e) := by
  cases e with
  | arrive g m => exact groupInvariant_arrive s g m hs
  | fire tid => exact groupInvariant_fire s tid hs
  | stop => exact groupInvariant_stop s hs

/-- The empty initial state satisfies the group invariant. -/
theorem initGroup_invariant : GroupBuffer.groupInvariant GroupBuffer.initGroup := by
  constructor
  · intro g buf hb
    simp [GroupBuffer.initGroup] at hb
  · rintro g tid ⟨rec, ht, -, -⟩
    simp [GroupBuffer.initGroup] at ht

/-- Every reachable state of the media-group subsystem satisfies the
invariant. -/
theorem runGroup_invariant (evs : List GroupBuffer.GroupEvent) :
    GroupBuffer.groupInvariant (GroupBuffer.runGroup evs) := by
  suffices h : ∀ (evs : List GroupBuffer.GroupEvent) (s : GroupSys),
      GroupBuffer.groupInvariant s →
      GroupBuffer.groupInvariant (evs.foldl GroupBuffer.groupStep s) from
    h evs GroupBuffer.initGroup initGroup_invariant
  intro evs
  induction evs with
  | nil => exact fun s hs => hs
  | cons e evs ih => exact fun s hs => ih _ (groupStep_invariant s e hs)

/-- Claim C5: in every reachable state there is at most one non-completed
(sleeping) debounce timer per group key, and a superseded (cancelled) or
already-finished timer's firing step is a complete no-op: it never flushes,
never dispatches a payload, and never removes a buffer entry, so one
buffered generation can never be flushed twice. -/
theorem group_debounce_unique_and_stale_noop :
    (∀ evs g i j,
      GroupBuffer.sleepingFor (GroupBuffer.runGroup evs) g i →
      GroupBuffer.sleepingFor (GroupBuffer.runGroup evs) g j → i = j) ∧
    (∀ s tid rec, s.timers[tid]? = some rec →
      rec.status ≠ TimerStatus.sleeping →
      GroupBuffer.groupStep s (GroupBuffer.GroupEvent.fire tid) = s) := by
  constructor
  · intro evs g i j hi hj
    have inv := runGroup_invariant evs
    obtain ⟨bi, hbi, hpi⟩ := inv.2 g i hi
    obtain ⟨bj, hbj, hpj⟩ := inv.2 g j hj
    rw [hbi] at hbj
    obtain rfl := Option.some.inj hbj
    rw [hpi] at hpj
    exact Option.some.inj hpj
  · intro s tid rec h hns
    show GroupBuffer.timerFire s tid = s
    simp [GroupBuffer.timerFire, h, hns]

/-- Witness for C5: in the state reached by two quick arrivals for `"g"`,
firing the superseded timer 0 changes nothing. -/
theorem group_debounce_stale_noop_witness :
    GroupBuffer.groupStep
        (GroupBuffer.runGroup [.arrive "g" 1, .arrive "g" 2])
        (GroupBuffer.GroupEvent.fire 0) =
      GroupBuffer.runGroup [.arrive "g" 1, .arrive "g" 2] :=
  group_debounce_unique_and_stale_noop.2
    (GroupBuffer.runGroup [.arrive "g" 1, .arrive "g" 2]) 0
    { group_id := "g", status := TimerStatus.cancelled }
    (by decide) (by decide)

/-- State reached by a chain of same-group arrivals with no timer firing in
between (every message within the debounce window of the previous one): all
messages buffered in arrival order, exactly the last created timer still
sleeping, nothing dispatched. -/
theorem runGroup_arrive_chain (g : String) (msgs : List Nat) (h : msgs ≠ []) :
    (GroupBuffer.runGroup (msgs.map (GroupBuffer.GroupEvent.arrive g))).buffers g =
      some { messages := msgs, timer_task := some (msgs.length - 1) } ∧
    (GroupBuffer.runGroup (msgs.map (GroupBuffer.GroupEvent.arrive g))).timers.length =
      msgs.length ∧
    (GroupBuffer.runGroup
        (msgs.map (GroupBuffer.GroupEvent.arrive g))).timers[msgs.length - 1]? =
      some { group_id := g, status := .sleeping } ∧
    (GroupBuffer.runGroup (msgs.map (GroupBuffer.GroupEvent.arrive g))).dispatched =
      [] := by
  induction msgs using List.reverseRecOn with
  | nil => exact absurd rfl h
  | append_singleton ms m ih =>
      by_cases hms : ms = []
      · subst hms
        obtain ⟨hbufs, htims, hdisp⟩ :=
          handle_proj_none GroupBuffer.initGroup g m rfl
        refine ⟨?_, ?_, ?_, ?_⟩
        · show (GroupBuffer.handle_media_group_message
            GroupBuffer.initGroup g m).buffers g = _
          rw [hbufs g, if_pos rfl]
          rfl
        · show (GroupBuffer.handle_media_group_message
            GroupBuffer.initGroup g m).timers.length = _
          rw [htims]
          rfl
        · show (GroupBuffer.handle_media_group_message
            GroupBuffer.initGroup g m).timers[([] ++ [m] : List Nat).length - 1]? = _
          rw [htims]
          rfl
        · show (GroupBuffer.handle_media_group_message
            GroupBuffer.initGroup g m).dispatched = _
          rw [hdisp]
          rfl
      · obtain ⟨ih1, ih2, ih3, ih4⟩ := ih hms
        have hstep : GroupBuffer.runGroup
            ((ms ++ [m]).map (GroupBuffer.GroupEvent.arrive g)) =
            GroupBuffer.groupStep
              (GroupBuffer.runGroup (ms.map (GroupBuffer.GroupEvent.arrive g)))
              (GroupBuffer.GroupEvent.arrive g m) := by
          simp only [GroupBuffer.runGroup, List.map_append, List.map_cons,
            List.map_nil, List.foldl_concat]
        obtain ⟨hbufs, htims, hdisp⟩ := handle_proj_some
          (GroupBuffer.runGroup (ms.map (GroupBuffer.GroupEvent.arrive g))) g m
          { messages := ms, timer_task := some (ms.length - 1) }
          (ms.length - 1) ih1 rfl
        have hlen : (GroupBuffer.cancelTimer
            (GroupBuffer.runGroup (ms.map (GroupBuffer.GroupEvent.arrive g))).timers
            (ms.length - 1)).length = ms.length := by
          rw [cancelTimer_length, ih2]
        rw [hstep]
        refine ⟨?_, ?_, ?_, ?_⟩
        · show (GroupBuffer.handle_media_group_message
            (GroupBuffer.runGroup (ms.map (GroupBuffer.GroupEvent.arrive g)))
            g m).buffers g = _
          rw [hbufs g, if_pos rfl, hlen]
          have hidx : (ms ++ [m]).length - 1 = ms.length := by
            rw [List.length_append]
            simp
          rw [hidx]
        · show (GroupBuffer.handle_media_group_message
            (GroupBuffer.runGroup (ms.map (GroupBuffer.GroupEvent.arrive g)))
            g m).timers.length = _
          rw [htims, List.length_append, hlen, List.length_append]
          rfl
        · show (GroupBuffer.handle_media_group_message
            (GroupBuffer.runGroup (ms.map (GroupBuffer.GroupEvent.arrive g)))
            g m).timers[(ms ++ [m]).length - 1]? = _
          rw [htims]
          have hidx : (ms ++ [m]).length - 1 = (GroupBuffer.cancelTimer
              (GroupBuffer.runGroup (ms.map (GroupBuffer.GroupEvent.arrive g))).timers
              (ms.length - 1)).length := by
            rw [hlen, List.length_append]
            simp
          rw [hidx]
          exact List.getElem?_concat_length _ _
        · show (GroupBuffer.handle_media_group_message
            (GroupBuffer.runGroup (ms.map (GroupBuffer.GroupEvent.arrive g)))
            g m).dispatched = _
          rw [hdisp, ih4]

/-- Claim C1: a sequence of N messages for one group key, each arriving
while the previous debounce timer is still pending (no fire event in
between), dispatches nothing during buffering; exactly one pending timer
remains, and its firing dispatches exactly one payload carrying all N
messages in arrival order and removes the buffer. -/
theorem media_group_single_flush (g : String) (msgs : List Nat)
    (h : msgs ≠ []) :
    (GroupBuffer.runGroup (msgs.map (GroupBuffer.GroupEvent.arrive g))).dispatched =
      [] ∧
    ∃ tid,
      (GroupBuffer.runGroup (msgs.map (GroupBuffer.GroupEvent.arrive g))).buffers g =
        some { messages := msgs, timer_task := some tid } ∧
      GroupBuffer.sleepingFor
        (GroupBuffer.runGroup (msgs.map (GroupBuffer.GroupEvent.arrive g))) g tid ∧
      (GroupBuffer.groupStep
        (GroupBuffer.runGroup (msgs.map (GroupBuffer.GroupEvent.arrive g)))
        (GroupBuffer.GroupEvent.fire tid)).dispatched = [(g, msgs)] ∧
      (GroupBuffer.groupStep
        (GroupBuffer.runGroup (msgs.map (GroupBuffer.GroupEvent.arrive g)))
        (GroupBuffer.GroupEvent.fire tid)).buffers g = none := by
  obtain ⟨h1, h2, h3, h4⟩ := runGroup_arrive_chain g msgs h
  have hred : GroupBuffer.timerFire
      (GroupBuffer.runGroup (msgs.map (GroupBuffer.GroupEvent.arrive g)))
      (msgs.length - 1) =
      { buffers := fun g' => if g' = g then none else
          (GroupBuffer.runGroup (msgs.map (GroupBuffer.GroupEvent.arrive g))).buffers g'
      , timers := (GroupBuffer.runGroup
          (msgs.map (GroupBuffer.GroupEvent.arrive g))).timers.set
          (msgs.length - 1) { group_id := g, status := .fired }
      , dispatched := (GroupBuffer.runGroup
          (msgs.map (GroupBuffer.GroupEvent.arrive g))).dispatched ++
          [(g, msgs)] } := by
    simp [GroupBuffer.timerFire, h3, GroupBuffer.process_media_group, h1, h]
  refine ⟨h4, msgs.length - 1, h1,
    ⟨{ group_id := g, status := .sleeping }, h3, rfl, rfl⟩, ?_, ?_⟩
  · show (GroupBuffer.timerFire
      (GroupBuffer.runGroup (msgs.map (GroupBuffer.GroupEvent.arrive g)))
      (msgs.length - 1)).dispatched = _
    rw [hred, h4]
    rfl
  · show (GroupBuffer.timerFire
      (GroupBuffer.runGroup (msgs.map (GroupBuffer.GroupEvent.arrive g)))
      (msgs.length - 1)).buffers g = _
    rw [hred]
    show (if g = g then none else _) = none
    rw [if_pos rfl]

/-- Witness for C1: three rapid messages for group `"g"` are buffered with
nothing dispatched. -/
theorem media_group_single_flush_witness :
    ([10, 20, 31] : List Nat) ≠ [] ∧
    (GroupBuffer.runGroup
        ([10, 20, 31].map (GroupBuffer.GroupEvent.arrive "g"))).dispatched = [] :=
  ⟨by decide, (media_group_single_flush "g" [10, 20, 31] (by decide)).1⟩
